import Mathlib

/-!
Verification development for the 1PPS measurement core.

This file shallowly embeds the two algorithmic kernels of the repository:

* `LinearClockApproximation` from `PPSutilities.py` (incremental
  least-squares clock fitting, tag queueing and rescaling), and
* `fast_process` from `PPS/fast_processing.py` (reference correlation,
  per-channel pending buffers, histograms and cycle aggregation),

and proves / refutes the specification's claims about them.

Conventions of the embedding:
* Python integers (numpy int64/int32 fields) are modelled as `Int`.
  The algorithms under verification never come near 64-bit overflow on the
  inputs used here, so wrap-around is not modelled.
* Python `//` and `>>` are floor division: `Int.fdiv`.
* numpy arrays are modelled as `List`s with `List.set` / `List.getD`
  (an out-of-range index in the source is a crash / undefined behaviour;
  `List.set` out of range is a no-op and `List.getD` returns the default,
  which is only exercised outside the well-formed states considered).
-/

/-- An incoming time tag as consumed by `LinearClockApproximation.process_tags`
(only the `channel` and `time` record fields are ever read by that code). -/
structure TTag where
  channel : Int
  time : Int
deriving Repr, DecidableEq

/-- State of `LinearClockApproximation` (the `jitclass` of `PPSutilities.py`,
lines 11-60).  The three-slot `_clock_timestamps` array is spelled out as
`clock_ts0`, `clock_ts1`, `clock_ts2` (index 2 = newest).  Fields named with a
leading underscore in Python lose the underscore here. -/
structure LCA where
  max_length : Nat
  period : Int
  channel : Int
  tags : List Int
  timestamp_storage : List Int
  channel_storage : List Int
  storage_start : Nat
  storage_end : Nat
  clock_time : Int
  clock_ts0 : Int
  clock_ts1 : Int
  clock_ts2 : Int
  y_sum_factor : Int
  period_x_denominator : Int
  step : Int
  denominator : Int
  y_sum : Int
  xy_sum : Int
  last_tag : Int
  position : Nat
  full : Bool
  slope : Int
  offset : Int
  reset_done : Bool
deriving Repr, DecidableEq

namespace LCA

/-- `LinearClockApproximation._reset` (lines 63-75). -/
def reset (s : LCA) : LCA :=
  { s with denominator := 1, y_sum := 0, xy_sum := 0, last_tag := 0,
           position := 0, full := false, slope := s.period,
           period_x_denominator := s.period, offset := 0, reset_done := true }

/-- `LinearClockApproximation.__init__` (lines 37-61).  Fields that `__init__`
only type-annotates without assigning (`_step`, `_y_sum_factor`, ...) are
zero-initialised here; `_reset` is applied at the end exactly as in the
source. -/
def init (length : Nat) (period channel : Int) : LCA :=
  reset
  { max_length := length, period := period, channel := channel,
    tags := List.replicate length 0,
    timestamp_storage := List.replicate 1000 0,
    channel_storage := List.replicate 1000 0,
    storage_start := 0, storage_end := 0,
    clock_time := -period,
    clock_ts0 := 0, clock_ts1 := 0, clock_ts2 := 0,
    y_sum_factor := 0, period_x_denominator := 0, step := 0, denominator := 0,
    y_sum := 0, xy_sum := 0, last_tag := 0, position := 0, full := false,
    slope := 0, offset := 0, reset_done := false }

/-- `LinearClockApproximation.skip` (lines 77-80). -/
def skip (s : LCA) (number_of_skipped_tags : Int) : LCA :=
  let s := { s with clock_time := s.clock_time + number_of_skipped_tags * s.period }
  if s.reset_done then s else s.reset

/-- `LinearClockApproximation.new_tag` (lines 115-143).  Python `>> 1`,
`<< 1`, `<< 2` are floor division / multiplication by powers of two;
`//` is `Int.fdiv`. -/
def new_tag (s : LCA) (tag : Int) : LCA :=
  let N : Int := (s.max_length : Int)
  let step := tag - s.last_tag - s.period
  let s0 := { s with reset_done := false, step := step, last_tag := tag }
  let s1 :=
    if s0.full then
      let front_to_end := tag - s0.tags.getD s0.position 0 - N * s0.period
      let xy_sum := s0.xy_sum + (-s0.y_sum + N * (Int.fdiv (step * (N + 1)) 2 - front_to_end))
      let y_sum := s0.y_sum + (front_to_end - N * step)
      let y_sum_factor := y_sum * (N - 1) * 2
      let slope := s0.period_x_denominator + 3 * (xy_sum * 4 + y_sum_factor)
      let offset := s0.period * ((2 * N - 1) * y_sum_factor + 6 * (N - 1) * xy_sum)
                    - Int.fdiv slope 2
      { s0 with xy_sum := xy_sum, y_sum := y_sum, y_sum_factor := y_sum_factor,
                slope := slope, offset := offset }
    else
      let p : Int := (s0.position : Int)
      let xy_sum := if s0.position ≠ 0 then
          s0.xy_sum + (-s0.y_sum + Int.fdiv (step * ((p + 1) * p)) 2)
        else s0.xy_sum
      let y_sum := if s0.position ≠ 0 then s0.y_sum - p * step else s0.y_sum
      let denominator := (p + 1) * (p ^ 2 - 1)
      let period_x_denominator := s0.period * denominator
      let slope := period_x_denominator + 12 * xy_sum + 6 * p * y_sum
      let offset := s0.period * (2 * p * (2 * p + 1) * y_sum + 6 * p * xy_sum)
                    - Int.fdiv slope 2
      let full := s0.position + 1 = s0.max_length
      { s0 with xy_sum := xy_sum, y_sum := y_sum, denominator := denominator,
                period_x_denominator := period_x_denominator,
                slope := slope, offset := offset, full := full }
  { s1 with tags := s1.tags.set s1.position tag,
            clock_time := s1.clock_time + s1.period,
            position := (s1.position + 1) % s1.max_length,
            clock_ts0 := s1.clock_ts1, clock_ts1 := s1.clock_ts2,
            clock_ts2 := tag - Int.fdiv s1.offset s1.slope }

/-- `LinearClockApproximation.rescale` (lines 150-151). -/
def rescale (s : LCA) (length : Int) : Int :=
  s.clock_time +
    Int.fdiv (s.period * (s.timestamp_storage.getD s.storage_start 0 - s.clock_ts0)) length

/-- Feeding a sequence of clock ticks one at a time through `new_tag`. -/
def feedTicks (s : LCA) (ticks : List Int) : LCA :=
  ticks.foldl new_tag s

/-- Termination helper for the ring-buffer loops: advancing the read index by
one (with wrap-around) strictly decreases the number of pending entries. -/
theorem ringMeasureLt (len start e : Nat) (h1 : start < len) (h2 : e < len)
    (h3 : start ≠ e) :
    (len + e - (if start + 1 = len then 0 else start + 1)) % len <
    (len + e - start) % len := by
  have key : ∀ v : Nat, v < 2 * len → v % len = if v < len then v else v - len := by
    intro v hv
    by_cases hlt : v < len
    · simp [Nat.mod_eq_of_lt hlt, hlt]
    · have hsub : v % len = (v - len) % len := Nat.mod_eq_sub_mod (by omega)
      rw [hsub, Nat.mod_eq_of_lt (by omega)]
      simp [hlt]
  by_cases hwrap : start + 1 = len
  · rw [if_pos hwrap, key _ (by omega), key _ (by omega)]
    split_ifs <;> omega
  · rw [if_neg hwrap, key _ (by omega), key _ (by omega)]
    split_ifs <;> omega

/-- The inner `while` loop of `process_tags` (lines 89-97), as a loop body
iterated on explicit fuel (structural recursion, so that it also computes
inside the kernel): drain the pending storage ring while it is non-empty and
the queued timestamp is earlier than `_clock_timestamps[1]`.  Emitted
`(time, channel)` pairs are appended to `out` (the source writes them into
the caller's `rescaled_tags` array).  The `storage_start < len ∧
storage_end < len` guard bounds the ring indices: the source would read out
of the fixed-size arrays otherwise, and every state produced by the embedded
operations satisfies it. -/
def drainLoopF : Nat → LCA → Int → List (Int × Int) → LCA × List (Int × Int)
  | 0, s, _, out => (s, out)
  | fuel + 1, s, cycle_length, out =>
    let len := s.channel_storage.length
    if s.storage_start < len ∧ s.storage_end < len ∧
       s.storage_start ≠ s.storage_end ∧
       s.timestamp_storage.getD s.storage_start 0 < s.clock_ts1 then
      let out' := if cycle_length > 0 then
          out ++ [(s.rescale cycle_length, s.channel_storage.getD s.storage_start 0)]
        else out
      let start' := if s.storage_start + 1 = len then 0 else s.storage_start + 1
      drainLoopF fuel { s with storage_start := start' } cycle_length out'
    else (s, out)

/-- The `while` loop with enough fuel to run to its exit condition: a ring of
capacity `len` holds at most `len - 1` pending entries, so `len` iterations
always reach the loop's exit. -/
def drainLoop (s : LCA) (cycle_length : Int) (out : List (Int × Int)) :
    LCA × List (Int × Int) :=
  drainLoopF s.channel_storage.length s cycle_length out

/-- `LinearClockApproximation.process_tags` (lines 82-106).  Returns the final
state together with the emitted rescaled `(time, channel)` pairs in order. -/
def process_tags (s : LCA) (tags : List TTag) : LCA × List (Int × Int) :=
  tags.foldl
    (fun acc t =>
      let s := acc.1
      let out := acc.2
      if t.channel = s.channel then
        let s' := s.new_tag t.time
        drainLoop s' (s'.clock_ts1 - s'.clock_ts0) out
      else
        let s' := { s with
          timestamp_storage := s.timestamp_storage.set s.storage_end t.time,
          channel_storage := s.channel_storage.set s.storage_end t.channel,
          storage_end := if s.storage_end + 1 = s.channel_storage.length then 0
                         else s.storage_end + 1 }
        (s', out))
    (s, [])

end LCA

/-! ### Batch characterisation of the trailing-window sums

`feedTicks (init N p ch) (lastN N L)` is the batch recomputation from scratch
over the trailing window of the tick sequence `L` (spec §8, "batch
least-squares fit recomputed from scratch over ticks `[max(0, i-N+1), i]`").
The definitions below are closed forms used to relate the incremental run to
that recomputation: for a window `w` ending in its newest tick,
`batch_y_sum`/`batch_xy_sum` are the sums of (weighted) deviations of the
window's ticks from the nominal lattice anchored at the newest tick. -/

/-- `tri n = 0 + 1 + ... + (n-1)`. -/
def tri : Nat → Int
  | 0 => 0
  | n + 1 => tri n + n

/-- `sqSum n = 0² + 1² + ... + (n-1)²`. -/
def sqSum : Nat → Int
  | 0 => 0
  | n + 1 => sqSum n + (n : Int) ^ 2

/-- `ageSum [w₀, ..., w_{m-1}] = Σ_j (m-1-j)·w_j` (each element weighted by
its age relative to the newest entry). -/
def ageSum : List Int → Int
  | [] => 0
  | a :: rest => (rest.length : Int) * a + ageSum rest

/-- Last element of a list (default 0). -/
def lastD (w : List Int) : Int := w.getD (w.length - 1) 0

/-- `Σ_j (w_j - w_last + (m-1-j)·period)`: the linear sufficient statistic of
the batch fit over window `w`, in the deviation coordinates used by
`new_tag`'s running `y_sum`. -/
def batch_y_sum (w : List Int) (p : Int) : Int :=
  w.sum - (w.length : Int) * lastD w + p * tri w.length

/-- `Σ_j (m-1-j)·(w_last - w_j - (m-1-j)·period)`: the cross sufficient
statistic of the batch fit over window `w`, matching `new_tag`'s running
`xy_sum`. -/
def batch_xy_sum (w : List Int) (p : Int) : Int :=
  lastD w * tri w.length - ageSum w - p * sqSum w.length

/-- The trailing window `[max(0, i-N+1), i]` of a tick sequence. -/
def lastN (N : Nat) (L : List Int) : List Int := L.drop (L.length - N)

theorem two_mul_tri (n : Nat) : 2 * tri n = (n : Int) * ((n : Int) - 1) := by
  induction n with
  | zero => simp [tri]
  | succ k ih =>
    show 2 * (tri k + (k : Int)) = _
    push_cast
    linear_combination ih

theorem tri_odd (m : Nat) : tri (2 * m + 1) = (2 * (m : Int) + 1) * m := by
  have h := two_mul_tri (2 * m + 1)
  push_cast at h
  linarith

theorem ageSum_append (w : List Int) (t : Int) :
    ageSum (w ++ [t]) = ageSum w + w.sum := by
  induction w with
  | nil => simp [ageSum]
  | cons a rest ih =>
    show (((rest ++ [t]).length : Int)) * a + ageSum (rest ++ [t])
        = ((rest.length : Int) * a + ageSum rest) + (a + rest.sum)
    rw [ih, List.length_append]
    simp only [List.length_cons, List.length_nil]
    push_cast
    ring

theorem lastD_append (w : List Int) (t : Int) : lastD (w ++ [t]) = t := by
  unfold lastD
  rw [List.length_append]
  simp only [List.length_cons, List.length_nil, Nat.add_sub_cancel]
  rw [List.getD_append_right _ _ _ _ (Nat.le_refl _)]
  simp

theorem fdiv_two_mul (b : Int) : Int.fdiv (2 * b) 2 = b :=
  Int.mul_fdiv_cancel_left b (by norm_num)

theorem lastN_of_le (N : Nat) (L : List Int) (h : L.length ≤ N) :
    lastN N L = L := by
  simp [lastN, Nat.sub_eq_zero_of_le h]

theorem lastN_length (N : Nat) (L : List Int) (h : N ≤ L.length) :
    (lastN N L).length = N := by
  simp only [lastN, List.length_drop]
  omega

theorem lastN_append (N : Nat) (hN : 1 ≤ N) (L : List Int) (t : Int)
    (h : N ≤ L.length) :
    lastN N (L ++ [t]) = (lastN N L).tail ++ [t] := by
  unfold lastN
  rw [List.length_append]
  simp only [List.length_cons, List.length_nil, Nat.add_sub_cancel]
  have h1 : L.length + 1 - N = (L.length - N) + 1 := by omega
  rw [h1, List.drop_append_of_le_length (by omega), List.tail_drop]

theorem getD_set_ne (l : List Int) (i j : Nat) (v : Int) (h : i ≠ j) :
    (l.set i v).getD j 0 = l.getD j 0 := by
  rcases Nat.lt_or_ge j l.length with hj | hj
  · rw [List.getD_eq_getElem _ _ (by simpa using hj), List.getD_eq_getElem _ _ hj]
    exact List.getElem_set_ne h _
  · rw [List.getD_eq_default _ _ (by simpa using hj), List.getD_eq_default _ _ hj]

theorem getD_set_self (l : List Int) (i : Nat) (v : Int) (h : i < l.length) :
    (l.set i v).getD i 0 = v := by
  rw [List.getD_eq_getElem _ _ (by simpa using h)]
  exact List.getElem_set_self _

/-- Growing the window by one tick: recurrences of the batch sums matching the
filling-regime update of `new_tag` (with `st` the deviation of the new
interval from nominal). -/
theorem batch_append_sums (w : List Int) (t p : Int) :
    batch_y_sum (w ++ [t]) p
      = batch_y_sum w p - (w.length : Int) * (t - lastD w - p) ∧
    batch_xy_sum (w ++ [t]) p
      = batch_xy_sum w p - batch_y_sum w p
        + (t - lastD w - p) * tri (w.length + 1) := by
  have htri := two_mul_tri w.length
  unfold batch_y_sum batch_xy_sum
  rw [lastD_append, ageSum_append, List.sum_append, List.length_append]
  simp only [List.sum_cons, List.sum_nil, List.length_cons, List.length_nil,
    Nat.zero_add, Nat.add_zero]
  constructor
  · show (w.sum + (t + 0)) - ((w.length + 1 : Nat) : Int) * t + p * tri (w.length + 1) = _
    show _ = w.sum - (w.length : Int) * lastD w + p * tri w.length
             - (w.length : Int) * (t - lastD w - p)
    rw [show tri (w.length + 1) = tri w.length + w.length from rfl]
    push_cast
    ring
  · show t * tri (w.length + 1) - (ageSum w + w.sum) - p * sqSum (w.length + 1) = _
    rw [show tri (w.length + 1) = tri w.length + w.length from rfl,
        show sqSum (w.length + 1) = sqSum w.length + (w.length : Int) ^ 2 from rfl]
    linear_combination p * htri

/-- Sliding the (full, odd-capacity) window by one tick: recurrences of the
batch sums matching the full-regime update of `new_tag` (`a` is the evicted
oldest tick; `fte` is the code's `front_to_end`; the `(m+1)` factor is the
exact value of `(st * (N+1)) >> 1` for `N = 2m+1`). -/
theorem batch_slide_sums (m : Nat) (a : Int) (rest : List Int) (t p : Int)
    (hlen : rest.length = 2 * m) :
    batch_y_sum (rest ++ [t]) p
      = batch_y_sum (a :: rest) p
        + ((t - a - (2 * (m : Int) + 1) * p)
           - (2 * (m : Int) + 1) * (t - lastD (a :: rest) - p)) ∧
    batch_xy_sum (rest ++ [t]) p
      = batch_xy_sum (a :: rest) p - batch_y_sum (a :: rest) p
        + (2 * (m : Int) + 1) * ((t - lastD (a :: rest) - p) * ((m : Int) + 1)
           - (t - a - (2 * (m : Int) + 1) * p)) := by
  have htri : tri (2 * m + 1) = (2 * (m : Int) + 1) * (m : Int) := tri_odd m
  unfold batch_y_sum batch_xy_sum
  rw [lastD_append, ageSum_append, List.sum_append,
      show (rest ++ [t]).length = 2 * m + 1 by simp [hlen],
      show (a :: rest).length = 2 * m + 1 by simp [hlen],
      show ageSum (a :: rest) = (rest.length : Int) * a + ageSum rest from rfl,
      show (a :: rest).sum = a + rest.sum from rfl, htri, hlen]
  simp only [List.sum_cons, List.sum_nil]
  constructor
  · push_cast
    ring
  · push_cast
    ring

/-- The `_period_x_denominator` value the filling-regime update computes when
the window has grown to `n` ticks. -/
def fitPxd (p : Int) (n : Nat) : Int :=
  p * ((n : Int) * (((n : Int) - 1) ^ 2 - 1))

/-- The (scaled, integer) least-squares slope recomputed from the batch
statistics of window `w`; matches `new_tag`'s `slope` in both regimes. -/
def fitSlope (w : List Int) (p : Int) : Int :=
  fitPxd p w.length + 12 * batch_xy_sum w p
    + 6 * ((w.length : Int) - 1) * batch_y_sum w p

/-- The (scaled, integer) least-squares offset recomputed from the batch
statistics of window `w`; matches `new_tag`'s `offset` in both regimes. -/
def fitOffset (w : List Int) (p : Int) : Int :=
  p * (2 * ((w.length : Int) - 1) * (2 * ((w.length : Int) - 1) + 1) * batch_y_sum w p
       + 6 * ((w.length : Int) - 1) * batch_xy_sum w p)
    - Int.fdiv (fitSlope w p) 2

/-- Invariant tying a not-yet-full `LinearClockApproximation` state to the
window `w` of all ticks fed since reset: the running sums are exactly the
batch statistics of `w`, the ring holds `w` in order, and slope/offset are
the least-squares values recomputed from scratch from `w`. -/
structure FillInv (N : Nat) (p : Int) (w : List Int) (s : LCA) : Prop where
  hmax : s.max_length = N
  hper : s.period = p
  htlen : s.tags.length = N
  hy : s.y_sum = batch_y_sum w p
  hxy : s.xy_sum = batch_xy_sum w p
  hlast : s.last_tag = lastD w
  hpos : s.position = w.length % N
  hfull : s.full = true ↔ w.length = N
  hmap : ∀ j, j < w.length → s.tags.getD j 0 = w.getD j 0
  hpxd : 1 ≤ w.length → s.period_x_denominator = fitPxd p w.length
  hslope : 1 ≤ w.length → s.slope = fitSlope w p
  hoffset : 1 ≤ w.length → s.offset = fitOffset w p

/-- Invariant tying a full `LinearClockApproximation` state to the trailing
window `lastN N L` of the whole tick sequence `L` fed since reset. -/
structure FullInv (N : Nat) (p : Int) (L : List Int) (s : LCA) : Prop where
  hmax : s.max_length = N
  hper : s.period = p
  htlen : s.tags.length = N
  hy : s.y_sum = batch_y_sum (lastN N L) p
  hxy : s.xy_sum = batch_xy_sum (lastN N L) p
  hlast : s.last_tag = lastD (lastN N L)
  hpos : s.position = L.length % N
  hfull : s.full = true
  hmap : ∀ j, j < N →
    s.tags.getD ((L.length % N + j) % N) 0 = (lastN N L).getD j 0
  hpxd : s.period_x_denominator = fitPxd p N
  hslope : s.slope = fitSlope (lastN N L) p
  hoffset : s.offset = fitOffset (lastN N L) p

theorem batch_y_singleton (t p : Int) : batch_y_sum [t] p = 0 := by
  simp [batch_y_sum, lastD, tri]

theorem batch_xy_singleton (t p : Int) : batch_xy_sum [t] p = 0 := by
  simp [batch_xy_sum, lastD, ageSum, tri, sqSum]

theorem batch_y_nil (p : Int) : batch_y_sum [] p = 0 := by
  simp [batch_y_sum, lastD, tri]

theorem batch_xy_nil (p : Int) : batch_xy_sum [] p = 0 := by
  simp [batch_xy_sum, lastD, ageSum, tri, sqSum]

/-- Explicit description of `new_tag` when the window is still filling. -/
theorem new_tag_not_full (s : LCA) (t : Int) (hf : s.full = false) :
    s.new_tag t =
      let st := t - s.last_tag - s.period
      let P : Int := (s.position : Int)
      let XY := if s.position ≠ 0 then
          s.xy_sum + (-s.y_sum + Int.fdiv (st * ((P + 1) * P)) 2)
        else s.xy_sum
      let Y := if s.position ≠ 0 then s.y_sum - P * st else s.y_sum
      let PXD := s.period * ((P + 1) * (P ^ 2 - 1))
      let SLP := PXD + 12 * XY + 6 * P * Y
      let OFF := s.period * (2 * P * (2 * P + 1) * Y + 6 * P * XY) - Int.fdiv SLP 2
      { s with reset_done := false, step := st, last_tag := t,
               xy_sum := XY, y_sum := Y,
               denominator := (P + 1) * (P ^ 2 - 1),
               period_x_denominator := PXD,
               slope := SLP, offset := OFF,
               full := decide (s.position + 1 = s.max_length),
               tags := s.tags.set s.position t,
               clock_time := s.clock_time + s.period,
               position := (s.position + 1) % s.max_length,
               clock_ts0 := s.clock_ts1, clock_ts1 := s.clock_ts2,
               clock_ts2 := t - Int.fdiv OFF SLP } := by
  simp only [LCA.new_tag, hf]
  rfl

/-- Explicit description of `new_tag` when the window is full. -/
theorem new_tag_full (s : LCA) (t : Int) (hf : s.full = true) :
    s.new_tag t =
      let N : Int := (s.max_length : Int)
      let st := t - s.last_tag - s.period
      let FTE := t - s.tags.getD s.position 0 - N * s.period
      let XY := s.xy_sum + (-s.y_sum + N * (Int.fdiv (st * (N + 1)) 2 - FTE))
      let Y := s.y_sum + (FTE - N * st)
      let YF := Y * (N - 1) * 2
      let SLP := s.period_x_denominator + 3 * (XY * 4 + YF)
      let OFF := s.period * ((2 * N - 1) * YF + 6 * (N - 1) * XY) - Int.fdiv SLP 2
      { s with reset_done := false, step := st, last_tag := t,
               xy_sum := XY, y_sum := Y, y_sum_factor := YF,
               slope := SLP, offset := OFF,
               tags := s.tags.set s.position t,
               clock_time := s.clock_time + s.period,
               position := (s.position + 1) % s.max_length,
               clock_ts0 := s.clock_ts1, clock_ts1 := s.clock_ts2,
               clock_ts2 := t - Int.fdiv OFF SLP } := by
  simp only [LCA.new_tag, hf]
  rfl

/-- One filling-regime `new_tag` step preserves the window invariant,
extending the window by the new tick. -/
theorem fillInv_step (N : Nat) (p : Int) (w : List Int) (s : LCA) (t : Int)
    (h : FillInv N p w s) (hlt : w.length < N) :
    FillInv N p (w ++ [t]) (s.new_tag t) := by
  obtain ⟨hmax, hper, htlen, hy, hxy, hlast, hpos, hfull, hmap, hpxd, hslope, hoffset⟩ := h
  have hf : s.full = false := by
    rcases Bool.eq_false_or_eq_true s.full with h0 | h0
    · exact absurd (hfull.mp h0) (Nat.ne_of_lt hlt)
    · exact h0
  have hposval : s.position = w.length := by rw [hpos, Nat.mod_eq_of_lt hlt]
  rw [new_tag_not_full s t hf]
  have hlenA : (w ++ [t]).length = w.length + 1 := by simp
  -- the updated sums, in closed form
  have hY : (if s.position ≠ 0 then
        s.y_sum - (s.position : Int) * (t - s.last_tag - s.period) else s.y_sum)
      = batch_y_sum (w ++ [t]) p := by
    rcases Nat.eq_zero_or_pos w.length with h0 | h0
    · have hw : w = [] := List.length_eq_zero.mp h0
      subst hw
      rw [if_neg (by simp [hposval]), hy]
      simp only [List.nil_append, batch_y_nil, batch_y_singleton]
    · rw [if_pos (by rw [hposval]; omega), hy, hlast, hper, hposval,
          (batch_append_sums w t p).1]
  have hXY : (if s.position ≠ 0 then
        s.xy_sum + (-s.y_sum + Int.fdiv ((t - s.last_tag - s.period) *
          (((s.position : Int) + 1) * (s.position : Int))) 2)
        else s.xy_sum)
      = batch_xy_sum (w ++ [t]) p := by
    rcases Nat.eq_zero_or_pos w.length with h0 | h0
    · have hw : w = [] := List.length_eq_zero.mp h0
      subst hw
      rw [if_neg (by simp [hposval]), hxy]
      simp only [List.nil_append, batch_xy_nil, batch_xy_singleton]
    · have h2 : ((w.length : Int) + 1) * (w.length : Int) = 2 * tri (w.length + 1) := by
        have h3 := two_mul_tri (w.length + 1)
        push_cast at h3
        linarith
      rw [if_pos (by rw [hposval]; omega), hxy, hy, hlast, hper, hposval, h2,
          show (t - lastD w - p) * (2 * tri (w.length + 1))
             = 2 * ((t - lastD w - p) * tri (w.length + 1)) by ring,
          fdiv_two_mul, (batch_append_sums w t p).2]
      ring
  have hSLP : s.period * (((s.position : Int) + 1) * ((s.position : Int) ^ 2 - 1))
        + 12 * (if s.position ≠ 0 then
            s.xy_sum + (-s.y_sum + Int.fdiv ((t - s.last_tag - s.period) *
              (((s.position : Int) + 1) * (s.position : Int))) 2)
          else s.xy_sum)
        + 6 * (s.position : Int) * (if s.position ≠ 0 then
            s.y_sum - (s.position : Int) * (t - s.last_tag - s.period) else s.y_sum)
      = fitSlope (w ++ [t]) p := by
    rw [hY, hXY, hper, hposval]
    unfold fitSlope fitPxd
    rw [hlenA]
    push_cast
    ring
  refine ⟨?_, ?_, ?_, ?_, ?_, ?_, ?_, ?_, ?_, ?_, ?_, ?_⟩
  · exact hmax
  · exact hper
  · show (s.tags.set s.position t).length = N
    rw [List.length_set, htlen]
  · exact hY
  · exact hXY
  · show t = lastD (w ++ [t])
    rw [lastD_append]
  · show (s.position + 1) % s.max_length = (w ++ [t]).length % N
    rw [hposval, hmax, hlenA]
  · show decide (s.position + 1 = s.max_length) = true ↔ (w ++ [t]).length = N
    rw [hposval, hmax, hlenA]
    simp
  · intro j hj
    show (s.tags.set s.position t).getD j 0 = (w ++ [t]).getD j 0
    rw [hlenA] at hj
    rcases Nat.lt_or_ge j w.length with hjw | hjw
    · rw [getD_set_ne _ _ _ _ (by rw [hposval]; omega),
          List.getD_append _ _ _ _ hjw]
      exact hmap j hjw
    · have hje : j = w.length := by omega
      subst hje
      rw [← hposval, getD_set_self _ _ _ (by rw [htlen, hposval]; omega), hposval,
          List.getD_append_right _ _ _ _ (Nat.le_refl _)]
      simp
  · intro _
    show s.period * (((s.position : Int) + 1) * ((s.position : Int) ^ 2 - 1))
       = fitPxd p (w ++ [t]).length
    rw [hper, hposval]
    unfold fitPxd
    rw [hlenA]
    push_cast
    ring
  · intro _
    exact hSLP
  · intro _
    show s.period * (2 * (s.position : Int) * (2 * (s.position : Int) + 1) *
          (if s.position ≠ 0 then
            s.y_sum - (s.position : Int) * (t - s.last_tag - s.period) else s.y_sum)
        + 6 * (s.position : Int) * (if s.position ≠ 0 then
            s.xy_sum + (-s.y_sum + Int.fdiv ((t - s.last_tag - s.period) *
              (((s.position : Int) + 1) * (s.position : Int))) 2)
          else s.xy_sum))
        - Int.fdiv (s.period * (((s.position : Int) + 1) * ((s.position : Int) ^ 2 - 1))
          + 12 * (if s.position ≠ 0 then
              s.xy_sum + (-s.y_sum + Int.fdiv ((t - s.last_tag - s.period) *
                (((s.position : Int) + 1) * (s.position : Int))) 2)
            else s.xy_sum)
          + 6 * (s.position : Int) * (if s.position ≠ 0 then
              s.y_sum - (s.position : Int) * (t - s.last_tag - s.period) else s.y_sum)) 2
       = fitOffset (w ++ [t]) p
    rw [hSLP, hY, hXY, hper, hposval]
    unfold fitOffset
    rw [hlenA]
    push_cast
    ring

/-- The reset state satisfies the invariant for the empty window. -/
theorem fillInv_base (N : Nat) (hN : 1 ≤ N) (p ch : Int) :
    FillInv N p [] (LCA.init N p ch) := by
  refine ⟨rfl, rfl, ?_, ?_, ?_, rfl, ?_, ?_, ?_, ?_, ?_, ?_⟩
  · show (List.replicate N (0 : Int)).length = N
    exact List.length_replicate N 0
  · show (0 : Int) = batch_y_sum [] p
    rw [batch_y_nil]
  · show (0 : Int) = batch_xy_sum [] p
    rw [batch_xy_nil]
  · show 0 = [].length % N
    simp
  · show false = true ↔ [].length = N
    constructor
    · intro h
      simp at h
    · intro h
      simp at h
      omega
  · intro j hj
    simp at hj
  · intro h
    simp at h
  · intro h
    simp at h
  · intro h
    simp at h

/-- Feeding at most `N` ticks from the reset state stays in the filling regime
and the state carries exactly the batch statistics of all ticks fed. -/
theorem feed_fillInv (N : Nat) (hN : 1 ≤ N) (p ch : Int) :
    ∀ w : List Int, w.length ≤ N →
      FillInv N p w ((LCA.init N p ch).feedTicks w) := by
  intro w
  induction w using List.reverseRecOn with
  | nil =>
    intro _
    exact fillInv_base N hN p ch
  | append_singleton w t ih =>
    intro hlen
    have hw : w.length < N := by
      rw [List.length_append] at hlen
      simp at hlen
      omega
    have hstep := fillInv_step N p w ((LCA.init N p ch).feedTicks w) t
      (ih (Nat.le_of_lt hw)) hw
    rwa [LCA.feedTicks, List.foldl_append, List.foldl_cons, List.foldl_nil,
        ← LCA.feedTicks]

theorem add_mod_ne (x k n : Nat) (h1 : 0 < k) (h2 : k < n) :
    (x + k) % n ≠ x % n := by
  intro heq
  have hmod : x % n = (x + k) % n := heq.symm
  have hdvd : n ∣ (x + k) - x := (Nat.modEq_iff_dvd' (Nat.le_add_right x k)).mp hmod
  rw [Nat.add_sub_cancel_left] at hdvd
  have := Nat.eq_zero_of_dvd_of_lt hdvd h2
  omega

/-- A window-full state that has seen exactly `N` ticks satisfies the
full-regime invariant. -/
theorem fullInv_of_fillInv (N : Nat) (hN : 1 ≤ N) (p : Int) (L : List Int)
    (s : LCA) (h : FillInv N p L s) (hlen : L.length = N) : FullInv N p L s := by
  obtain ⟨hmax, hper, htlen, hy, hxy, hlast, hpos, hfull, hmap, hpxd, hslope, hoffset⟩ := h
  have hlast' : lastN N L = L := lastN_of_le N L (le_of_eq hlen)
  refine ⟨hmax, hper, htlen, ?_, ?_, ?_, hpos, hfull.mpr hlen, ?_, ?_, ?_, ?_⟩
  · rw [hlast']; exact hy
  · rw [hlast']; exact hxy
  · rw [hlast']; exact hlast
  · intro j hj
    rw [hlast']
    have hidx : (L.length % N + j) % N = j := by
      rw [hlen, Nat.mod_self, Nat.zero_add, Nat.mod_eq_of_lt hj]
    rw [hidx]
    exact hmap j (by omega)
  · rw [hpxd (by omega), hlen]
  · rw [hslope (by omega), hlast']
  · rw [hoffset (by omega), hlast']

/-- One full-regime `new_tag` step (odd capacity `N = 2m+1`) preserves the
trailing-window invariant: the evicted tick's contribution leaves the sums
and the new tick's enters them exactly. -/
theorem fullInv_step (N m : Nat) (hNm : N = 2 * m + 1) (p : Int) (L : List Int)
    (s : LCA) (t : Int) (h : FullInv N p L s) (hL : N ≤ L.length) :
    FullInv N p (L ++ [t]) (s.new_tag t) := by
  obtain ⟨hmax, hper, htlen, hy, hxy, hlast, hpos, hfull, hmap, hpxd, hslope, hoffset⟩ := h
  have hN1 : 1 ≤ N := by omega
  have hNpos : 0 < N := by omega
  have hwlen : (lastN N L).length = N := lastN_length N L hL
  obtain ⟨a, rest, hw⟩ : ∃ a rest, lastN N L = a :: rest := by
    cases hcl : lastN N L with
    | nil => rw [hcl] at hwlen; simp at hwlen; omega
    | cons a rest => exact ⟨a, rest, rfl⟩
  have hrestlen : rest.length = 2 * m := by
    have h1 := hwlen
    rw [hw] at h1
    simp at h1
    omega
  have hwin' : lastN N (L ++ [t]) = rest ++ [t] := by
    rw [lastN_append N hN1 L t hL, hw]
    rfl
  have hlen' : (rest ++ [t]).length = N := by
    simp [hrestlen]
    omega
  have hposlt : L.length % N < N := Nat.mod_lt _ hNpos
  have hhead : s.tags.getD s.position 0 = a := by
    have h0 := hmap 0 hNpos
    rw [hw, Nat.add_zero, Nat.mod_eq_of_lt hposlt] at h0
    rw [hpos]
    exact h0
  have hsteq : t - s.last_tag - s.period = t - lastD (a :: rest) - p := by
    rw [hlast, hper, hw]
  have hcast : ((s.max_length : Int)) = 2 * (m : Int) + 1 := by
    rw [hmax, hNm]
    push_cast
    ring
  have hfd : Int.fdiv ((t - s.last_tag - s.period) * ((s.max_length : Int) + 1)) 2
      = (t - s.last_tag - s.period) * ((m : Int) + 1) := by
    rw [show (t - s.last_tag - s.period) * ((s.max_length : Int) + 1)
         = 2 * ((t - s.last_tag - s.period) * ((m : Int) + 1)) by
           rw [hcast]; ring,
        fdiv_two_mul]
  have hY : s.y_sum + ((t - s.tags.getD s.position 0 - (s.max_length : Int) * s.period)
        - (s.max_length : Int) * (t - s.last_tag - s.period))
      = batch_y_sum (rest ++ [t]) p := by
    rw [hhead, hsteq, hper, hcast, hy, hw]
    linear_combination ((batch_slide_sums m a rest t p hrestlen).1).symm
  have hXY : s.xy_sum + (-s.y_sum + (s.max_length : Int) *
        (Int.fdiv ((t - s.last_tag - s.period) * ((s.max_length : Int) + 1)) 2
         - (t - s.tags.getD s.position 0 - (s.max_length : Int) * s.period)))
      = batch_xy_sum (rest ++ [t]) p := by
    rw [hfd, hhead, hsteq, hper, hcast, hxy, hy, hw]
    linear_combination ((batch_slide_sums m a rest t p hrestlen).2).symm
  have hSLPfit : s.period_x_denominator + 3 *
        ((s.xy_sum + (-s.y_sum + (s.max_length : Int) *
          (Int.fdiv ((t - s.last_tag - s.period) * ((s.max_length : Int) + 1)) 2
           - (t - s.tags.getD s.position 0 - (s.max_length : Int) * s.period)))) * 4
         + (s.y_sum + ((t - s.tags.getD s.position 0 - (s.max_length : Int) * s.period)
            - (s.max_length : Int) * (t - s.last_tag - s.period)))
           * ((s.max_length : Int) - 1) * 2)
      = fitSlope (rest ++ [t]) p := by
    rw [hXY, hY, hpxd, hmax]
    unfold fitSlope
    rw [hlen']
    ring
  rw [new_tag_full s t hfull]
  refine ⟨hmax, hper, ?_, ?_, ?_, ?_, ?_, hfull, ?_, hpxd, ?_, ?_⟩
  · show (s.tags.set s.position t).length = N
    rw [List.length_set, htlen]
  · show s.y_sum + ((t - s.tags.getD s.position 0 - (s.max_length : Int) * s.period)
        - (s.max_length : Int) * (t - s.last_tag - s.period))
      = batch_y_sum (lastN N (L ++ [t])) p
    rw [hwin']
    exact hY
  · show s.xy_sum + (-s.y_sum + (s.max_length : Int) *
        (Int.fdiv ((t - s.last_tag - s.period) * ((s.max_length : Int) + 1)) 2
         - (t - s.tags.getD s.position 0 - (s.max_length : Int) * s.period)))
      = batch_xy_sum (lastN N (L ++ [t])) p
    rw [hwin']
    exact hXY
  · show t = lastD (lastN N (L ++ [t]))
    rw [hwin', lastD_append]
  · show (s.position + 1) % s.max_length = (L ++ [t]).length % N
    rw [hpos, hmax, List.length_append]
    simp only [List.length_cons, List.length_nil]
    exact Nat.mod_add_mod L.length N 1
  · intro j hj
    show (s.tags.set s.position t).getD (((L ++ [t]).length % N + j) % N) 0
       = (lastN N (L ++ [t])).getD j 0
    rw [hwin', List.length_append,
        show L.length + [t].length = L.length + 1 by simp,
        Nat.mod_add_mod]
    rcases Nat.lt_or_ge (j + 1) N with hj1 | hj1
    · have hidx : (L.length + 1 + j) % N = (L.length % N + (j + 1)) % N := by
        rw [Nat.mod_add_mod]
        congr 1
        omega
      have hne : s.position ≠ (L.length % N + (j + 1)) % N := by
        rw [hpos, Nat.mod_add_mod]
        exact (add_mod_ne L.length (j + 1) N (by omega) hj1).symm
      have hrl : j < rest.length := by omega
      rw [hidx, getD_set_ne _ _ _ _ hne, List.getD_append _ _ _ _ hrl,
          hmap (j + 1) hj1, hw]
      rfl
    · have hidx : (L.length + 1 + j) % N = L.length % N := by
        have h1 : L.length + 1 + j = L.length + N := by omega
        rw [h1, Nat.add_mod_right]
      rw [hidx, ← hpos, getD_set_self _ _ _ (by rw [htlen, hpos]; exact hposlt),
          List.getD_append_right _ _ _ _ (by omega),
          show j - rest.length = 0 by omega]
      rfl
  · show s.period_x_denominator + 3 *
        ((s.xy_sum + (-s.y_sum + (s.max_length : Int) *
          (Int.fdiv ((t - s.last_tag - s.period) * ((s.max_length : Int) + 1)) 2
           - (t - s.tags.getD s.position 0 - (s.max_length : Int) * s.period)))) * 4
         + (s.y_sum + ((t - s.tags.getD s.position 0 - (s.max_length : Int) * s.period)
            - (s.max_length : Int) * (t - s.last_tag - s.period)))
           * ((s.max_length : Int) - 1) * 2)
      = fitSlope (lastN N (L ++ [t])) p
    rw [hwin']
    exact hSLPfit
  · show s.period * ((2 * (s.max_length : Int) - 1) *
        ((s.y_sum + ((t - s.tags.getD s.position 0 - (s.max_length : Int) * s.period)
           - (s.max_length : Int) * (t - s.last_tag - s.period)))
          * ((s.max_length : Int) - 1) * 2)
        + 6 * ((s.max_length : Int) - 1) *
          (s.xy_sum + (-s.y_sum + (s.max_length : Int) *
            (Int.fdiv ((t - s.last_tag - s.period) * ((s.max_length : Int) + 1)) 2
             - (t - s.tags.getD s.position 0 - (s.max_length : Int) * s.period)))))
      - Int.fdiv (s.period_x_denominator + 3 *
        ((s.xy_sum + (-s.y_sum + (s.max_length : Int) *
          (Int.fdiv ((t - s.last_tag - s.period) * ((s.max_length : Int) + 1)) 2
           - (t - s.tags.getD s.position 0 - (s.max_length : Int) * s.period)))) * 4
         + (s.y_sum + ((t - s.tags.getD s.position 0 - (s.max_length : Int) * s.period)
            - (s.max_length : Int) * (t - s.last_tag - s.period)))
           * ((s.max_length : Int) - 1) * 2)) 2
      = fitOffset (lastN N (L ++ [t])) p
    rw [hwin', hSLPfit, hY, hXY, hper, hmax]
    unfold fitOffset
    rw [hlen']
    ring

/-- After at least `N` ticks (odd capacity `N = 2m+1`), the incremental state
carries exactly the batch statistics of the trailing window `lastN N L`. -/
theorem feed_fullInv (N m : Nat) (hNm : N = 2 * m + 1) (p ch : Int) :
    ∀ L : List Int, N ≤ L.length →
      FullInv N p L ((LCA.init N p ch).feedTicks L) := by
  intro L
  induction L using List.reverseRecOn with
  | nil =>
    intro hL
    simp at hL
    omega
  | append_singleton L t ih =>
    intro hL
    have hfeed : (LCA.init N p ch).feedTicks (L ++ [t])
        = ((LCA.init N p ch).feedTicks L).new_tag t := by
      rw [LCA.feedTicks, List.foldl_append, List.foldl_cons, List.foldl_nil,
          ← LCA.feedTicks]
    rw [hfeed]
    rcases Nat.lt_or_ge L.length N with hlt | hge
    · -- the window fills up exactly now: L.length + 1 = N
      have hlen : (L ++ [t]).length = N := by
        rw [List.length_append] at hL ⊢
        simp at hL ⊢
        omega
      have hfill := feed_fillInv N (by omega) p ch (L ++ [t]) (le_of_eq hlen)
      rw [hfeed] at hfill
      exact fullInv_of_fillInv N (by omega) p (L ++ [t])
        (((LCA.init N p ch).feedTicks L).new_tag t) hfill hlen
    · exact fullInv_step N m hNm p L ((LCA.init N p ch).feedTicks L) t (ih hge) hge

/-- C1 (amended): for an odd window capacity `max_length = N`, after any
finite sequence `L` of clock ticks fed one at a time to `new_tag` from the
reset state, the incrementally maintained running sums `y_sum` and `xy_sum`
— and the slope and offset derived from them — are exactly equal to those of
a batch fit recomputed from scratch (feeding a fresh
`LinearClockApproximation` of the same capacity) over the trailing window
`[max(0, i-N+1), i]`, in both the filling and the full regime.  (For even
`max_length` the claim fails: see the counterexample.) -/
theorem clock_fit_matches_batch_recompute (N : Nat) (hN : N % 2 = 1)
    (p ch : Int) (L : List Int) :
    ((LCA.init N p ch).feedTicks L).y_sum
      = ((LCA.init N p ch).feedTicks (lastN N L)).y_sum ∧
    ((LCA.init N p ch).feedTicks L).xy_sum
      = ((LCA.init N p ch).feedTicks (lastN N L)).xy_sum ∧
    ((LCA.init N p ch).feedTicks L).slope
      = ((LCA.init N p ch).feedTicks (lastN N L)).slope ∧
    ((LCA.init N p ch).feedTicks L).offset
      = ((LCA.init N p ch).feedTicks (lastN N L)).offset := by
  rcases Nat.lt_or_ge L.length N with hlt | hge
  · rw [lastN_of_le N L (Nat.le_of_lt hlt)]
    exact ⟨rfl, rfl, rfl, rfl⟩
  · obtain ⟨m, hNm⟩ : ∃ m, N = 2 * m + 1 := ⟨N / 2, by omega⟩
    have hN1 : 1 ≤ N := by omega
    have hwlen : (lastN N L).length = N := lastN_length N L hge
    have hfull := feed_fullInv N m hNm p ch L hge
    have hfill := feed_fillInv N hN1 p ch (lastN N L) (le_of_eq hwlen)
    have hw1 : 1 ≤ (lastN N L).length := by omega
    refine ⟨?_, ?_, ?_, ?_⟩
    · rw [hfull.hy, hfill.hy]
    · rw [hfull.hxy, hfill.hxy]
    · rw [hfull.hslope, hfill.hslope hw1]
    · rw [hfull.hoffset, hfill.hoffset hw1]

/-- C1 counterexample: with the even window capacity `max_length = 2`,
period 10, after the ticks `[0, 11, 22]` (the step of the last interval is
odd, so the `>> 1` in the full-regime update floors away `N/2`), the
incrementally maintained `xy_sum` is 0 while the batch recomputation from
scratch over the trailing window `[11, 22]` yields 1: the running sums do
not correspond to the ticks in the ring in the full regime. -/
theorem clock_fit_counterexample :
    (LCA.feedTicks (LCA.init 2 10 7) [0, 11, 22]).xy_sum = 0 ∧
    lastN 2 [0, 11, 22] = [11, 22] ∧
    (LCA.feedTicks (LCA.init 2 10 7) [11, 22]).xy_sum = 1 ∧
    (LCA.feedTicks (LCA.init 2 10 7) [0, 11, 22]).y_sum
      = (LCA.feedTicks (LCA.init 2 10 7) [11, 22]).y_sum := by
  refine ⟨by decide, by decide, by decide, by decide⟩

/-- C1 witness: the amended theorem applied at the concrete odd capacity 3,
period 10, tick sequence `[0, 11, 22, 30]`. -/
theorem clock_fit_matches_batch_recompute_witness :
    3 % 2 = 1 ∧
    (((LCA.init 3 10 7).feedTicks [0, 11, 22, 30]).y_sum
      = ((LCA.init 3 10 7).feedTicks (lastN 3 [0, 11, 22, 30])).y_sum ∧
    ((LCA.init 3 10 7).feedTicks [0, 11, 22, 30]).xy_sum
      = ((LCA.init 3 10 7).feedTicks (lastN 3 [0, 11, 22, 30])).xy_sum ∧
    ((LCA.init 3 10 7).feedTicks [0, 11, 22, 30]).slope
      = ((LCA.init 3 10 7).feedTicks (lastN 3 [0, 11, 22, 30])).slope ∧
    ((LCA.init 3 10 7).feedTicks [0, 11, 22, 30]).offset
      = ((LCA.init 3 10 7).feedTicks (lastN 3 [0, 11, 22, 30])).offset) :=
  ⟨by decide, clock_fit_matches_batch_recompute 3 (by decide) 10 7 [0, 11, 22, 30]⟩

/-- When `_reset_done` is set, the regression accumulators hold their reset
values (`skip` relies on this to make re-resetting unnecessary).  This holds
at construction and is preserved by every operation. -/
def ResetConsistent (s : LCA) : Prop :=
  s.reset_done = true →
    (s.denominator = 1 ∧ s.y_sum = 0 ∧ s.xy_sum = 0 ∧ s.last_tag = 0 ∧
     s.position = 0 ∧ s.full = false ∧ s.slope = s.period ∧
     s.period_x_denominator = s.period ∧ s.offset = 0)

theorem resetConsistent_init (N : Nat) (p ch : Int) :
    ResetConsistent (LCA.init N p ch) :=
  fun _ => ⟨rfl, rfl, rfl, rfl, rfl, rfl, rfl, rfl, rfl⟩

theorem resetConsistent_new_tag (s : LCA) (t : Int) :
    ResetConsistent (s.new_tag t) := by
  intro hdone
  rcases Bool.eq_false_or_eq_true s.full with hf | hf
  · rw [new_tag_full s t hf] at hdone
    simp at hdone
  · rw [new_tag_not_full s t hf] at hdone
    simp at hdone

theorem resetConsistent_skip (s : LCA) (k : Int) (hs : ResetConsistent s) :
    ResetConsistent (s.skip k) := by
  intro hdone
  simp only [LCA.skip] at hdone ⊢
  rcases Bool.eq_false_or_eq_true s.reset_done with hr | hr
  · rw [if_pos (by simp [hr])] at hdone ⊢
    obtain ⟨h1, h2, h3, h4, h5, h6, h7, h8, h9⟩ := hs hr
    exact ⟨h1, h2, h3, h4, h5, h6, h7, h8, h9⟩
  · rw [if_neg (by simp [hr])] at hdone ⊢
    exact ⟨rfl, rfl, rfl, rfl, rfl, rfl, rfl, rfl, rfl⟩

/-- C7: a missed-event marker of `k ≥ 0` skipped clock ticks advances the
nominal clock time by exactly `k * period` and leaves every regression
accumulator — running sums, window position, full flag, last tick,
denominator, slope, offset — in the empty-window (reset) state.
`ResetConsistent` rules out the unreachable states where `_reset_done` is
set while the accumulators are not at their reset values. -/
theorem skip_advances_clock_and_resets (s : LCA) (k : Int)
    (hs : ResetConsistent s) (hk : 0 ≤ k) :
    (s.skip k).clock_time = s.clock_time + k * s.period ∧
    (s.skip k).denominator = 1 ∧ (s.skip k).y_sum = 0 ∧
    (s.skip k).xy_sum = 0 ∧ (s.skip k).last_tag = 0 ∧
    (s.skip k).position = 0 ∧ (s.skip k).full = false ∧
    (s.skip k).slope = s.period ∧
    (s.skip k).period_x_denominator = s.period ∧
    (s.skip k).offset = 0 ∧ (s.skip k).reset_done = true := by
  simp only [LCA.skip]
  rcases Bool.eq_false_or_eq_true s.reset_done with hr | hr
  · rw [if_pos (by simp [hr])]
    obtain ⟨h1, h2, h3, h4, h5, h6, h7, h8, h9⟩ := hs hr
    exact ⟨rfl, h1, h2, h3, h4, h5, h6, h7, h8, h9, hr⟩
  · rw [if_neg (by simp [hr])]
    exact ⟨rfl, rfl, rfl, rfl, rfl, rfl, rfl, rfl, rfl, rfl, rfl⟩

/-- C7 witness: the theorem applied to the (reachable) state obtained by one
`new_tag` after construction, with `k = 2`. -/
theorem skip_advances_clock_and_resets_witness :
    ResetConsistent ((LCA.init 3 5 7).new_tag 4) ∧ (0 : Int) ≤ 2 ∧
    (((LCA.init 3 5 7).new_tag 4).skip 2).clock_time
        = ((LCA.init 3 5 7).new_tag 4).clock_time + 2 * ((LCA.init 3 5 7).new_tag 4).period ∧
    (((LCA.init 3 5 7).new_tag 4).skip 2).denominator = 1 ∧
    (((LCA.init 3 5 7).new_tag 4).skip 2).y_sum = 0 ∧
    (((LCA.init 3 5 7).new_tag 4).skip 2).xy_sum = 0 ∧
    (((LCA.init 3 5 7).new_tag 4).skip 2).last_tag = 0 ∧
    (((LCA.init 3 5 7).new_tag 4).skip 2).position = 0 ∧
    (((LCA.init 3 5 7).new_tag 4).skip 2).full = false ∧
    (((LCA.init 3 5 7).new_tag 4).skip 2).slope = ((LCA.init 3 5 7).new_tag 4).period ∧
    (((LCA.init 3 5 7).new_tag 4).skip 2).period_x_denominator
        = ((LCA.init 3 5 7).new_tag 4).period ∧
    (((LCA.init 3 5 7).new_tag 4).skip 2).offset = 0 ∧
    (((LCA.init 3 5 7).new_tag 4).skip 2).reset_done = true :=
  ⟨resetConsistent_new_tag (LCA.init 3 5 7) 4, by decide,
   skip_advances_clock_and_resets ((LCA.init 3 5 7).new_tag 4) 2
     (resetConsistent_new_tag (LCA.init 3 5 7) 4) (by decide)⟩

/-- On a clock-channel tag, `process_tags` performs `new_tag` and then drains
with cycle length `_clock_timestamps[1] - _clock_timestamps[0]` (the two
OLDEST of the three stored anchors, computed after the shift). -/
theorem process_tags_clock_tag (s : LCA) (tg : TTag) (hch : tg.channel = s.channel) :
    s.process_tags [tg]
      = LCA.drainLoop (s.new_tag tg.time)
          ((s.new_tag tg.time).clock_ts1 - (s.new_tag tg.time).clock_ts0) [] := by
  simp [LCA.process_tags, hch]

/-- With a non-positive cycle length the drain loop never emits anything. -/
theorem LCA.drainLoopF_no_emit (fuel : Nat) :
    ∀ (s : LCA) (cl : Int) (out : List (Int × Int)), cl ≤ 0 →
      (LCA.drainLoopF fuel s cl out).2 = out := by
  induction fuel with
  | zero => intro s cl out _; rfl
  | succ n ih =>
    intro s cl out hcl
    show (if s.storage_start < s.channel_storage.length ∧
            s.storage_end < s.channel_storage.length ∧
            s.storage_start ≠ s.storage_end ∧
            s.timestamp_storage.getD s.storage_start 0 < s.clock_ts1 then _
          else ((s, out) : LCA × List (Int × Int))).2 = out
    split
    · rw [show (if cl > 0 then
            out ++ [(s.rescale cl, s.channel_storage.getD s.storage_start 0)]
          else out) = out from if_neg (by omega)]
      exact ih _ cl out hcl
    · rfl

/-- C3 (amended): on each clock-channel tick, `process_tags` drains the
pending queue using the SECOND-newest and OLDEST of the three stored fitted
anchors (not the two newest): the drain runs while the queued raw time is
earlier than `_clock_timestamps[1]`; the cycle length is
`_clock_timestamps[1] - _clock_timestamps[0]`; and a drained tag is emitted
(only when the cycle length is positive) with rescaled time
`clock_time + (period * (queuedTime - _clock_timestamps[0])) // cycleLength`
where `//` is FLOOR division, not truncation toward zero. -/
theorem rescaler_drain_uses_older_anchors (s : LCA) (tg : TTag) (cl : Int)
    (out : List (Int × Int)) (fuel : Nat) (hch : tg.channel = s.channel) :
    (s.process_tags [tg]
      = LCA.drainLoop (s.new_tag tg.time)
          ((s.new_tag tg.time).clock_ts1 - (s.new_tag tg.time).clock_ts0) []) ∧
    (∀ _ : s.storage_start < s.channel_storage.length ∧
           s.storage_end < s.channel_storage.length ∧
           s.storage_start ≠ s.storage_end ∧
           s.timestamp_storage.getD s.storage_start 0 < s.clock_ts1,
      LCA.drainLoopF (fuel + 1) s cl out
        = LCA.drainLoopF fuel
            { s with storage_start :=
                if s.storage_start + 1 = s.channel_storage.length then 0
                else s.storage_start + 1 }
            cl
            (if cl > 0 then
               out ++ [(s.clock_time + Int.fdiv (s.period *
                 (s.timestamp_storage.getD s.storage_start 0 - s.clock_ts0)) cl,
                 s.channel_storage.getD s.storage_start 0)]
             else out)) ∧
    (¬(s.storage_start < s.channel_storage.length ∧
       s.storage_end < s.channel_storage.length ∧
       s.storage_start ≠ s.storage_end ∧
       s.timestamp_storage.getD s.storage_start 0 < s.clock_ts1) →
      LCA.drainLoopF (fuel + 1) s cl out = (s, out)) := by
  refine ⟨process_tags_clock_tag s tg hch, ?_, ?_⟩
  · intro h
    show (if s.storage_start < s.channel_storage.length ∧
            s.storage_end < s.channel_storage.length ∧
            s.storage_start ≠ s.storage_end ∧
            s.timestamp_storage.getD s.storage_start 0 < s.clock_ts1 then _
          else ((s, out) : LCA × List (Int × Int))) = _
    rw [if_pos h]
    rfl
  · intro h
    show (if s.storage_start < s.channel_storage.length ∧
            s.storage_end < s.channel_storage.length ∧
            s.storage_start ≠ s.storage_end ∧
            s.timestamp_storage.getD s.storage_start 0 < s.clock_ts1 then _
          else ((s, out) : LCA × List (Int × Int))) = (s, out)
    rw [if_neg h]

/-- C3 counterexample.  Clock channel 7, period 100, `max_length` 2; stream
`[(7,0), (7,101), (1,150), (7,200)]`.  After the clock tick at 200 the stored
anchors are `[1, 102, 168]`, the queued tag 150 is earlier than the newest
anchor 168 and the claim's cycle length `168 - 102 = 66` is positive, so the
claim demands it be drained and emitted now (with truncating-division value
`200 + trunc(100*(150-102)/66) = 272`); the code leaves it queued and emits
nothing.  Only at the next tick (time 300) is it emitted, with value 372
(the code's `clock_time + (100*(150-102)) // 66` computed from the two OLDEST
anchors 102 and 168), not 272 and not the claim's tick-300 prediction
`300 + trunc(100*(150-168)/83) = 279`. -/
theorem rescaler_anchor_counterexample :
    (LCA.process_tags (LCA.init 2 100 7) [⟨7, 0⟩, ⟨7, 101⟩, ⟨1, 150⟩, ⟨7, 200⟩]).2 = [] ∧
    (LCA.process_tags (LCA.init 2 100 7)
        [⟨7, 0⟩, ⟨7, 101⟩, ⟨1, 150⟩, ⟨7, 200⟩]).1.storage_start = 0 ∧
    (LCA.process_tags (LCA.init 2 100 7)
        [⟨7, 0⟩, ⟨7, 101⟩, ⟨1, 150⟩, ⟨7, 200⟩]).1.storage_end = 1 ∧
    (LCA.process_tags (LCA.init 2 100 7)
        [⟨7, 0⟩, ⟨7, 101⟩, ⟨1, 150⟩, ⟨7, 200⟩]).1.timestamp_storage.getD 0 0 = 150 ∧
    (LCA.process_tags (LCA.init 2 100 7)
        [⟨7, 0⟩, ⟨7, 101⟩, ⟨1, 150⟩, ⟨7, 200⟩]).1.clock_ts2 = 168 ∧
    (LCA.process_tags (LCA.init 2 100 7)
        [⟨7, 0⟩, ⟨7, 101⟩, ⟨1, 150⟩, ⟨7, 200⟩]).1.clock_ts1 = 102 ∧
    (LCA.process_tags (LCA.init 2 100 7)
        [⟨7, 0⟩, ⟨7, 101⟩, ⟨1, 150⟩, ⟨7, 200⟩, ⟨7, 300⟩]).2 = [(372, 1)] := by
  set_option maxRecDepth 400000 in
  refine ⟨by decide, by decide, by decide, by decide, by decide, by decide, by decide⟩

/-- C3 witness: the amended drain characterisation applied at the initial
state with a clock tag, cycle length 1, fuel 3. -/
theorem rescaler_drain_uses_older_anchors_witness :
    (⟨7, 0⟩ : TTag).channel = (LCA.init 2 100 7).channel ∧
    ((LCA.init 2 100 7).process_tags [⟨7, 0⟩]
      = LCA.drainLoop ((LCA.init 2 100 7).new_tag 0)
          (((LCA.init 2 100 7).new_tag 0).clock_ts1
            - ((LCA.init 2 100 7).new_tag 0).clock_ts0) [] ∧
    (∀ _ : (LCA.init 2 100 7).storage_start < (LCA.init 2 100 7).channel_storage.length ∧
           (LCA.init 2 100 7).storage_end < (LCA.init 2 100 7).channel_storage.length ∧
           (LCA.init 2 100 7).storage_start ≠ (LCA.init 2 100 7).storage_end ∧
           (LCA.init 2 100 7).timestamp_storage.getD (LCA.init 2 100 7).storage_start 0
             < (LCA.init 2 100 7).clock_ts1,
      LCA.drainLoopF (3 + 1) (LCA.init 2 100 7) 1 []
        = LCA.drainLoopF 3
            { LCA.init 2 100 7 with storage_start :=
                if (LCA.init 2 100 7).storage_start + 1
                    = (LCA.init 2 100 7).channel_storage.length then 0
                else (LCA.init 2 100 7).storage_start + 1 }
            1
            (if (1 : Int) > 0 then
               [] ++ [((LCA.init 2 100 7).clock_time + Int.fdiv ((LCA.init 2 100 7).period *
                 ((LCA.init 2 100 7).timestamp_storage.getD (LCA.init 2 100 7).storage_start 0
                   - (LCA.init 2 100 7).clock_ts0)) 1,
                 (LCA.init 2 100 7).channel_storage.getD (LCA.init 2 100 7).storage_start 0)]
             else [])) ∧
    (¬((LCA.init 2 100 7).storage_start < (LCA.init 2 100 7).channel_storage.length ∧
       (LCA.init 2 100 7).storage_end < (LCA.init 2 100 7).channel_storage.length ∧
       (LCA.init 2 100 7).storage_start ≠ (LCA.init 2 100 7).storage_end ∧
       (LCA.init 2 100 7).timestamp_storage.getD (LCA.init 2 100 7).storage_start 0
         < (LCA.init 2 100 7).clock_ts1) →
      LCA.drainLoopF (3 + 1) (LCA.init 2 100 7) 1 [] = (LCA.init 2 100 7, []))) :=
  ⟨by decide, rescaler_drain_uses_older_anchors (LCA.init 2 100 7) ⟨7, 0⟩ 1 [] 3 (by decide)⟩

/-- C4 (amended): when the computed cycle length is non-positive
(degenerate / non-monotonic fitted anchors), a queued tag that is drained is
consumed from the queue WITHOUT being emitted at all — neither rescaled nor
with its original timestamp — and no warning is raised (the class's `print`
helper returns before printing, and the drain has no message channel); the
whole-call output on such a clock tick is empty.  No crash or NaN occurs:
the degenerate branch performs no division. -/
theorem degenerate_cycle_drops_silently (s : LCA) (tg : TTag)
    (hch : tg.channel = s.channel)
    (hcl : (s.new_tag tg.time).clock_ts1 - (s.new_tag tg.time).clock_ts0 ≤ 0) :
    (s.process_tags [tg]).2 = [] := by
  rw [process_tags_clock_tag s tg hch]
  exact LCA.drainLoopF_no_emit _ _ _ _ hcl

/-- C4 counterexample.  Clock channel 7, period 100; the signal tag at time
-5 is queued, then the clock tick at 0 computes cycle length
`_clock_timestamps[1] - _clock_timestamps[0] = 0 ≤ 0` and consumes the queued
tag (read index advances to the write index, leaving the queue empty) while
emitting nothing at all — the tag is silently dropped, not passed through
unrescaled, and no warning is produced anywhere. -/
theorem degenerate_cycle_counterexample :
    (LCA.process_tags (LCA.init 2 100 7) [⟨1, -5⟩, ⟨7, 0⟩]).2 = [] ∧
    (LCA.process_tags (LCA.init 2 100 7) [⟨1, -5⟩, ⟨7, 0⟩]).1.storage_start = 1 ∧
    (LCA.process_tags (LCA.init 2 100 7) [⟨1, -5⟩, ⟨7, 0⟩]).1.storage_end = 1 := by
  set_option maxRecDepth 400000 in
  refine ⟨by decide, by decide, by decide⟩

/-- C4 witness: the amended theorem applied to the state holding the queued
tag at time -5, hit by the clock tick at time 0 (cycle length 0). -/
theorem degenerate_cycle_drops_silently_witness :
    ((⟨7, 0⟩ : TTag).channel
        = ((LCA.process_tags (LCA.init 2 100 7) [⟨1, -5⟩]).1).channel) ∧
    ((((LCA.process_tags (LCA.init 2 100 7) [⟨1, -5⟩]).1).new_tag 0).clock_ts1
      - (((LCA.process_tags (LCA.init 2 100 7) [⟨1, -5⟩]).1).new_tag 0).clock_ts0 ≤ 0) ∧
    (((LCA.process_tags (LCA.init 2 100 7) [⟨1, -5⟩]).1).process_tags [⟨7, 0⟩]).2 = [] :=
  ⟨by decide, by decide,
   degenerate_cycle_drops_silently ((LCA.process_tags (LCA.init 2 100 7) [⟨1, -5⟩]).1)
     ⟨7, 0⟩ (by decide) (by decide)⟩

/-! ### `fast_process` (`src/PPS/fast_processing.py`)

Embedding conventions specific to this function:
* The float histogram/result arrays only ever receive exact integer
  differences; histogram cells are modelled as `Int`.
* A result cell `data[:, i, k]` (the mean/stddev pair, written together) is
  modelled as `Option (List Int × Int)`: `none` is the NaN/NaN row, and
  `some (data_set, addend)` records the exact inputs of the float
  mean/stddev computation (the recorded samples and the value added to the
  mean) instead of the float results themselves.
* `histWrites` is a ghost log: every write into the histograms array is
  recorded as `(row, column)` without affecting the computation; it makes
  the (un)boundedness of the write column observable.
* The `while reference["last"] < threshold` loop of the
  `reference.channel == 0` mode is iterated on fuel
  `(threshold - last).toNat + 1`, which reaches the loop's exit whenever
  `period ≥ 1`; for `period ≤ 0` the source loop does not terminate.
* The `print("overflow!", ...)` branch for tags of non-zero type goes to
  stdout, not to the returned message list, and changes no state. -/

/-- An incoming tag as read by `fast_process` (fields `type`, `channel`,
`time` of the SDK record; `missed_events` is read only by commented-out
code). -/
structure FTag where
  ttype : Int
  channel : Int
  time : Int
deriving Repr, DecidableEq

/-- The `reference_dtype` record (lines 12-19). -/
structure RefState where
  channel : Int
  period : Int
  n_average : Int
  index : Int
  count : Int
  last : Int
  data_index : Nat
  missed : Int
deriving Repr, DecidableEq

/-- The `channel_dtype` record (lines 6-11). -/
structure ChanState where
  channel : Int
  buffer_read_index : Nat
  buffer_write_index : Nat
  offset : Int
  index : Nat
  missed : Int
deriving Repr, DecidableEq, Inhabited

/-- The mutable arrays passed to `fast_process`, plus the message list it
builds and the ghost histogram-write log. -/
structure FPState where
  reference : RefState
  channels : List ChanState
  stored_tags : List (List Int)
  histograms : List (List Int)
  data : List (List (Option (List Int × Int)))
  data_capacity : Nat
  data_reftime : List Int
  messages : List String
  histWrites : List (Nat × Nat)
deriving Repr, DecidableEq

/-- Advance a channel's circular read index (lines 103-105). -/
def bumpRead (c : ChanState) (cap : Nat) : ChanState :=
  { c with buffer_read_index :=
      if c.buffer_read_index + 1 = cap then 0 else c.buffer_read_index + 1 }

/-- The per-channel drain loop at a reference arrival (lines 88-105), on
fuel; `writes` collects the ghost log of histogram write columns.  The
read/write-index bounds in the guard delimit the well-formed states (the
source would index outside its fixed arrays otherwise). -/
def drainChanF : Nat → ChanState → List Int → List Int → Int → Int → Nat →
    List Nat → ChanState × List Int × List Nat
  | 0, c, _, hist, _, _, _, writes => (c, hist, writes)
  | fuel + 1, c, row, hist, last, period, cap, writes =>
    if c.buffer_read_index < cap ∧ c.buffer_write_index < cap ∧
       c.buffer_write_index ≠ c.buffer_read_index then
      let difference := row.getD c.buffer_read_index 0 - last
      if difference < Int.fdiv (-period) 2 then
        drainChanF fuel (bumpRead c cap) row hist last period cap writes
      else if difference < Int.fdiv period 2 then
        drainChanF fuel (bumpRead { c with index := c.index + 1 } cap) row
          (hist.set c.index difference) last period cap (writes ++ [c.index])
      else (c, hist, writes)
    else (c, hist, writes)

/-- The drain loop with enough fuel to reach its exit (a ring of capacity
`cap` holds at most `cap - 1` pending entries). -/
def drainChan (c : ChanState) (row hist : List Int) (last period : Int)
    (cap : Nat) : ChanState × List Int × List Nat :=
  drainChanF cap c row hist last period cap []

/-- The `for i in range(len(channels))` drain over all channels
(lines 87-105); `i` tags the ghost write log with the channel row. -/
def drainAll : List ChanState → List (List Int) → List (List Int) →
    Int → Int → Nat → Nat →
    List ChanState × List (List Int) × List (Nat × Nat)
  | c :: cs, row :: rows, h :: hs, last, period, cap, i =>
      let r1 := drainChan c row h last period cap
      let r2 := drainAll cs rows hs last period cap (i + 1)
      (r1.1 :: r2.1, r1.2.1 :: r2.2.1,
       (r1.2.2.map (fun col => (i, col))) ++ r2.2.2)
  | cs, _, hs, _, _, _, _ => (cs, hs, [])

/-- The per-channel part of the cycle-closing block (lines 109-119): an
empty histogram yields a NaN cell and a message, otherwise the mean/stddev
cell of the recorded samples (offset by the channel's `anchorOffset`) and a
reset count. -/
def closeChans : List ChanState → List (List Int) →
    List ChanState × List (Option (List Int × Int)) × List String
  | c :: cs, h :: hs =>
      let r := closeChans cs hs
      if c.index = 0 then
        (c :: r.1, none :: r.2.1,
         (s!"No events on channel {c.channel}.") :: r.2.2)
      else
        ({ c with index := 0 } :: r.1,
         some (h.take c.index, c.offset) :: r.2.1, r.2.2)
  | cs, _ => (cs, [], [])

/-- Write one result cell per channel into column `idx` of the result
buffer. -/
def writeColumn : List (List (Option (List Int × Int))) →
    List (Option (List Int × Int)) → Nat → List (List (Option (List Int × Int)))
  | d :: ds, cell :: cells, idx => d.set idx cell :: writeColumn ds cells idx
  | ds, _, _ => ds

/-- Store a signal tag into its channel's pending ring (lines 128-139),
anchoring the channel first if its offset is still -1 (lines 130-134).
Only the first matching channel is touched (the loop breaks). -/
def pushTag : List ChanState → List (List Int) → Int → Int → Int → Int → Nat →
    List ChanState × List (List Int)
  | c :: cs, row :: rows, tagChannel, time, last, period, cap =>
      if c.channel = tagChannel then
        let c1 := if c.offset = -1 then
            let difference := time - last
            let difference := if difference > Int.fdiv period 2 then
                difference - period else difference
            { c with offset := difference }
          else c
        let row' := row.set c1.buffer_write_index (time - c1.offset)
        let c2 := { c1 with buffer_write_index :=
            if c1.buffer_write_index + 1 = cap then 0
            else c1.buffer_write_index + 1 }
        (c2 :: cs, row' :: rows)
      else
        let r := pushTag cs rows tagChannel time last period cap
        (c :: r.1, row :: r.2)
  | cs, rows, _, _, _, _, _ => (cs, rows)

/-- The software-lattice catch-up loop (lines 60-62), on fuel. -/
def catchUpF : Nat → Int → Int → Int → Int → Int × Int
  | 0, last, index, _, _ => (last, index)
  | fuel + 1, last, index, threshold, period =>
      if last < threshold then
        catchUpF fuel (last + period) (index + 1) threshold period
      else (last, index)

/-- The catch-up loop with enough fuel for any positive period. -/
def catchUp (last index threshold period : Int) : Int × Int :=
  catchUpF ((threshold - last).toNat + 1) last index threshold period

/-- The per-channel part of the `reference.channel == 0` cycle-closing block
(lines 64-69): always computes the cell (no NaN check, no message), with the
reference period as the mean's addend. -/
def closeChans0 : List ChanState → List (List Int) → Int →
    List ChanState × List (Option (List Int × Int))
  | c :: cs, h :: hs, period =>
      let r := closeChans0 cs hs period
      ({ c with index := 0 } :: r.1, some (h.take c.index, period) :: r.2)
  | cs, _, _ => (cs, [])

/-- Histogram update for the current tag in `reference.channel == 0` mode
(lines 76-82): the only write site with a bound check
(`channels[i]["index"] < histogram_width`). -/
def pushTag0 : List ChanState → List (List Int) → Int → Int → Int → Nat → Nat →
    List ChanState × List (List Int) × List (Nat × Nat)
  | c :: cs, h :: hs, tagChannel, time, period, width, i =>
      if c.channel = tagChannel then
        if c.offset > 0 ∧ c.index < width then
          ({ c with index := c.index + 1, offset := time } :: cs,
           h.set c.index (time - c.offset - period) :: hs, [(i, c.index)])
        else
          ({ c with offset := time } :: cs, h :: hs, [])
      else
        let r := pushTag0 cs hs tagChannel time period width (i + 1)
        (c :: r.1, h :: r.2.1, r.2.2)
  | cs, hs, _, _, _, _, _ => (cs, hs, [])

/-- One iteration of `fast_process`'s main `for tag in tags` loop
(lines 52-156). -/
def fastStep (s : FPState) (tag : FTag) : FPState :=
  let tags_to_store := (s.stored_tags.headD []).length
  let histogram_width := (s.histograms.headD []).length
  if tag.ttype = 0 then
    if s.reference.channel = 0 then
      if s.reference.last = 0 then
        { s with reference := { s.reference with last := tag.time } }
      else
        let threshold := tag.time - s.reference.period
        let li := catchUp s.reference.last s.reference.index threshold
            s.reference.period
        let r1 : RefState := { s.reference with last := li.1, index := li.2 }
        let s1 := { s with reference := r1 }
        let s2 :=
          if r1.index ≥ r1.n_average then
            let cc := closeChans0 s1.channels s1.histograms r1.period
            let data' := writeColumn s1.data cc.2 r1.data_index
            let reftime' := s1.data_reftime.set r1.data_index r1.last
            let di1 := r1.data_index + 1
            let r2 := { r1 with
                data_index := if di1 = s1.data_capacity then 0 else di1,
                count := r1.count + 1, index := 0 }
            { s1 with channels := cc.1, data := data', data_reftime := reftime',
                      reference := r2 }
          else s1
        let pt := pushTag0 s2.channels s2.histograms tag.channel tag.time
            s2.reference.period histogram_width 0
        { s2 with channels := pt.1, histograms := pt.2.1,
                  histWrites := s2.histWrites ++ pt.2.2 }
    else
      if tag.channel = s.reference.channel then
        let s1 :=
          if s.reference.last > 0 then
            let dr := drainAll s.channels s.stored_tags s.histograms
                s.reference.last s.reference.period tags_to_store 0
            { s with channels := dr.1, histograms := dr.2.1,
                     histWrites := s.histWrites ++ dr.2.2 }
          else s
        let r1 : RefState := { s1.reference with
                    last := tag.time, index := s1.reference.index + 1 }
        let s2 := { s1 with reference := r1 }
        if r1.index ≥ r1.n_average then
          let cc := closeChans s2.channels s2.histograms
          let data' := writeColumn s2.data cc.2.1 r1.data_index
          let reftime' := s2.data_reftime.set r1.data_index r1.last
          let hists0 := s2.histograms.map (fun h => List.replicate h.length (0 : Int))
          let di1 := r1.data_index + 1
          let r2 := { r1 with
              data_index := if di1 = s2.data_capacity then 0 else di1,
              count := r1.count + 1, index := 0 }
          { s2 with channels := cc.1, data := data', data_reftime := reftime',
                    histograms := hists0, reference := r2,
                    messages := s2.messages ++ cc.2.2 }
        else s2
      else
        if s.reference.last > 0 then
          let pt := pushTag s.channels s.stored_tags tag.channel tag.time
              s.reference.last s.reference.period tags_to_store
          { s with channels := pt.1, stored_tags := pt.2 }
        else s
  else
    s

/-- `fast_process` (lines 22-156): fold the per-tag step over the incoming
batch. -/
def fast_process (s : FPState) (tags : List FTag) : FPState :=
  tags.foldl fastStep s

/-- A one-signal-channel starting state for the concrete runs: reference
channel 1, period 1000, averaging count `navg`, one signal channel (id 2,
unanchored), pending-ring capacity `cap`, histogram width `width`, result
capacity 4 — mirroring the caller's allocation in the module's `__main__`
(lines 198-204). -/
def oneChanState (navg : Int) (cap width : Nat) : FPState :=
  { reference := { channel := 1, period := 1000, n_average := navg, index := 0,
                   count := 0, last := 0, data_index := 0, missed := 0 },
    channels := [{ channel := 2, buffer_read_index := 0, buffer_write_index := 0,
                   offset := -1, index := 0, missed := 0 }],
    stored_tags := [List.replicate cap 0],
    histograms := [List.replicate width 0],
    data := [List.replicate 4 none],
    data_capacity := 4,
    data_reftime := List.replicate 4 0,
    messages := [], histWrites := [] }

/-- C2 (amended): the drain's boundary classification is closed on the LEFT:
a buffered sample whose `diff` to the previous reference time is exactly
`(-period)//2` is RECORDED (not discarded); discarded are exactly the
samples with `diff < (-period)//2`; recorded are exactly those with
`(-period)//2 ≤ diff < period//2`; and a sample with
`diff ≥ period//2` (and `≥ (-period)//2`) is not recorded and halts the
drain for that channel. -/
theorem drain_boundary_classification (fuel : Nat) (c : ChanState)
    (row hist : List Int) (last period : Int) (cap : Nat) (writes : List Nat)
    (hguard : c.buffer_read_index < cap ∧ c.buffer_write_index < cap ∧
              c.buffer_write_index ≠ c.buffer_read_index) :
    (row.getD c.buffer_read_index 0 - last < Int.fdiv (-period) 2 →
      drainChanF (fuel + 1) c row hist last period cap writes
        = drainChanF fuel (bumpRead c cap) row hist last period cap writes) ∧
    (Int.fdiv (-period) 2 ≤ row.getD c.buffer_read_index 0 - last →
     row.getD c.buffer_read_index 0 - last < Int.fdiv period 2 →
      drainChanF (fuel + 1) c row hist last period cap writes
        = drainChanF fuel (bumpRead { c with index := c.index + 1 } cap) row
            (hist.set c.index (row.getD c.buffer_read_index 0 - last))
            last period cap (writes ++ [c.index])) ∧
    (Int.fdiv (-period) 2 ≤ row.getD c.buffer_read_index 0 - last →
     Int.fdiv period 2 ≤ row.getD c.buffer_read_index 0 - last →
      drainChanF (fuel + 1) c row hist last period cap writes
        = (c, hist, writes)) := by
  refine ⟨?_, ?_, ?_⟩
  · intro h1
    simp only [drainChanF]
    rw [if_pos hguard, if_pos h1]
  · intro h1 h2
    simp only [drainChanF]
    rw [if_pos hguard, if_neg (by omega), if_pos h2]
  · intro h1 h2
    simp only [drainChanF]
    rw [if_pos hguard, if_neg (by omega), if_neg (by omega)]

/-- C2 witness: one drain step on a buffered sample at exactly
`-period/2 = -500` below the previous reference time (recorded), applied at
concrete values. -/
theorem drain_boundary_classification_witness :
    (({ channel := 2, buffer_read_index := 0, buffer_write_index := 1,
        offset := 0, index := 0, missed := 0 } : ChanState).buffer_read_index < 4 ∧
     ({ channel := 2, buffer_read_index := 0, buffer_write_index := 1,
        offset := 0, index := 0, missed := 0 } : ChanState).buffer_write_index < 4 ∧
     ({ channel := 2, buffer_read_index := 0, buffer_write_index := 1,
        offset := 0, index := 0, missed := 0 } : ChanState).buffer_write_index ≠
     ({ channel := 2, buffer_read_index := 0, buffer_write_index := 1,
        offset := 0, index := 0, missed := 0 } : ChanState).buffer_read_index) ∧
    (Int.fdiv (-1000) 2 ≤ [500, 0, 0, 0].getD 0 0 - 1000 ∧
     [500, 0, 0, 0].getD 0 0 - 1000 < Int.fdiv 1000 2 ∧
     drainChanF (3 + 1)
        { channel := 2, buffer_read_index := 0, buffer_write_index := 1,
          offset := 0, index := 0, missed := 0 } [500, 0, 0, 0] [0, 0, 0, 0]
        1000 1000 4 []
      = drainChanF 3
          (bumpRead { channel := 2, buffer_read_index := 0, buffer_write_index := 1,
                      offset := 0, index := 1, missed := 0 } 4)
          [500, 0, 0, 0]
          ([0, 0, 0, 0].set 0 (-500)) 1000 1000 4 ([] ++ [0])) := by
  refine ⟨by decide, by decide, by decide, ?_⟩
  have h := (drain_boundary_classification 3
    { channel := 2, buffer_read_index := 0, buffer_write_index := 1,
      offset := 0, index := 0, missed := 0 } [500, 0, 0, 0] [0, 0, 0, 0]
    1000 1000 4 [] (by decide)).2.1 (by decide) (by decide)
  simpa using h

/-- C2 counterexample.  Reference channel 1, period 1000.  After the stream
`ref@1000, ref@2000, sig@3600, ref@3650, sig@3750, ref@4650`, the drain at
the reference arrival 4650 sees a buffered sample whose `diff` to the
previous reference time 3650 is exactly `-period/2 = -500`; the claim says
it is discarded, but the code records it into the histogram (slot 0 holds
-500 and the channel's histogram count is 1). -/
theorem drain_boundary_counterexample :
    (fast_process (oneChanState 100 8 8)
        [⟨0, 1, 1000⟩, ⟨0, 1, 2000⟩, ⟨0, 2, 3600⟩, ⟨0, 1, 3650⟩,
         ⟨0, 2, 3750⟩, ⟨0, 1, 4650⟩]).histograms
      = [[-500, 0, 0, 0, 0, 0, 0, 0]] ∧
    (fast_process (oneChanState 100 8 8)
        [⟨0, 1, 1000⟩, ⟨0, 1, 2000⟩, ⟨0, 2, 3600⟩, ⟨0, 1, 3650⟩,
         ⟨0, 2, 3750⟩, ⟨0, 1, 4650⟩]).channels
      = [{ channel := 2, buffer_read_index := 2, buffer_write_index := 2,
           offset := 600, index := 1, missed := 0 }] ∧
    (fast_process (oneChanState 100 8 8)
        [⟨0, 1, 1000⟩, ⟨0, 1, 2000⟩, ⟨0, 2, 3600⟩, ⟨0, 1, 3650⟩,
         ⟨0, 2, 3750⟩, ⟨0, 1, 4650⟩]).stored_tags
      = [[3000, 3150, 0, 0, 0, 0, 0, 0]] := by
  refine ⟨by decide, by decide, by decide⟩

/-- C10: a signal-channel tag arriving while the stored last reference time
is still 0 (no reference tag seen yet) is ignored entirely: the whole state
— channels, pending buffers, histograms, results, messages — is unchanged,
no anchor offset is established, and nothing is stored. -/
theorem signal_before_first_reference_ignored (s : FPState) (tag : FTag)
    (ht : tag.ttype = 0) (hrc : s.reference.channel ≠ 0)
    (hch : tag.channel ≠ s.reference.channel) (hlast : s.reference.last = 0) :
    fastStep s tag = s := by
  simp only [fastStep]
  rw [if_pos ht, if_neg hrc, if_neg hch, if_neg (by omega)]

/-- C10 witness: a signal tag on channel 2 at time 500 before any reference
tag, against the concrete one-channel state. -/
theorem signal_before_first_reference_ignored_witness :
    ((⟨0, 2, 500⟩ : FTag).ttype = 0 ∧
     (oneChanState 100 8 8).reference.channel ≠ 0 ∧
     (⟨0, 2, 500⟩ : FTag).channel ≠ (oneChanState 100 8 8).reference.channel ∧
     (oneChanState 100 8 8).reference.last = 0) ∧
    fastStep (oneChanState 100 8 8) ⟨0, 2, 500⟩ = oneChanState 100 8 8 :=
  ⟨⟨by decide, by decide, by decide, by decide⟩,
   signal_before_first_reference_ignored (oneChanState 100 8 8) ⟨0, 2, 500⟩
     (by decide) (by decide) (by decide) (by decide)⟩

/-- On a signal tag after the first reference, `fastStep` only runs the push
block: channels and stored rows via `pushTag`, everything else untouched. -/
theorem fastStep_signal (s : FPState) (tag : FTag)
    (ht : tag.ttype = 0) (hrc : s.reference.channel ≠ 0)
    (hch : tag.channel ≠ s.reference.channel) (hlast : s.reference.last > 0) :
    fastStep s tag = { s with
      channels := (pushTag s.channels s.stored_tags tag.channel tag.time
        s.reference.last s.reference.period (s.stored_tags.headD []).length).1,
      stored_tags := (pushTag s.channels s.stored_tags tag.channel tag.time
        s.reference.last s.reference.period (s.stored_tags.headD []).length).2 } := by
  simp only [fastStep]
  rw [if_pos ht, if_neg hrc, if_neg hch, if_pos hlast]

/-- `pushTag` never touches any channel's read index or histogram count. -/
theorem pushTag_read_count_unchanged :
    ∀ (cs : List ChanState) (rows : List (List Int))
      (tc time last period : Int) (cap : Nat),
      (pushTag cs rows tc time last period cap).1.map ChanState.buffer_read_index
        = cs.map ChanState.buffer_read_index ∧
      (pushTag cs rows tc time last period cap).1.map ChanState.index
        = cs.map ChanState.index := by
  intro cs
  induction cs with
  | nil => intro rows tc time last period cap; constructor <;> rfl
  | cons c cs ih =>
    intro rows tc time last period cap
    cases rows with
    | nil => constructor <;> rfl
    | cons row rows =>
      by_cases hc : c.channel = tc
      · by_cases ho : c.offset = -1 <;>
          simp [pushTag, hc, ho]
      · have h1 := (ih rows tc time last period cap).1
        have h2 := (ih rows tc time last period cap).2
        constructor <;> simp [pushTag, hc, h1, h2]

/-- The write index of the first channel matching the pushed tag advances by
one with wrap-around at `cap`, computed without consulting the read index. -/
theorem pushTag_write_advances :
    ∀ (cs : List ChanState) (rows : List (List Int))
      (tc time last period : Int) (cap : Nat) (i : Nat),
      i < cs.length → cs.length ≤ rows.length →
      (∀ j, j < i → (cs.getD j default).channel ≠ tc) →
      (cs.getD i default).channel = tc →
      ((pushTag cs rows tc time last period cap).1.getD i default).buffer_write_index
        = (if (cs.getD i default).buffer_write_index + 1 = cap then 0
           else (cs.getD i default).buffer_write_index + 1) := by
  intro cs
  induction cs with
  | nil =>
    intro rows tc time last period cap i hi
    exact absurd hi (by simp)
  | cons c cs ih =>
    intro rows tc time last period cap i hi hrows hfirst hmatch
    cases rows with
    | nil => simp at hrows
    | cons row rows =>
      cases i with
      | zero =>
        have hc : c.channel = tc := hmatch
        by_cases ho : c.offset = -1 <;>
          simp [pushTag, hc, ho]
      | succ j =>
        have hc : c.channel ≠ tc := hfirst 0 (Nat.succ_pos j)
        have hrec := ih rows tc time last period cap j (by simpa using hi)
          (by simpa using hrows) (fun k hk => hfirst (k + 1) (by omega))
          (by simpa using hmatch)
        simpa [pushTag, hc] using hrec

/-- C5 (amended): pushing a tag into a full pending ring wraps SILENTLY.
The write index of the (first) matching channel advances by one modulo the
ring capacity without ever consulting the read index, nothing is dropped
deliberately, and no warning is emitted: messages, histograms, the ghost
write log, every read index and every histogram count are unchanged.  In
particular the write index may overtake the read index unreported, making
the pending samples invisible to the drain. -/
theorem buffer_overflow_wraps_silently (s : FPState) (tag : FTag)
    (ht : tag.ttype = 0) (hrc : s.reference.channel ≠ 0)
    (hch : tag.channel ≠ s.reference.channel) (hlast : s.reference.last > 0)
    (i : Nat) (hi : i < s.channels.length)
    (hrows : s.channels.length ≤ s.stored_tags.length)
    (hfirst : ∀ j, j < i → (s.channels.getD j default).channel ≠ tag.channel)
    (hmatch : (s.channels.getD i default).channel = tag.channel) :
    (fastStep s tag).messages = s.messages ∧
    (fastStep s tag).histograms = s.histograms ∧
    (fastStep s tag).histWrites = s.histWrites ∧
    (fastStep s tag).channels.map ChanState.buffer_read_index
      = s.channels.map ChanState.buffer_read_index ∧
    (fastStep s tag).channels.map ChanState.index
      = s.channels.map ChanState.index ∧
    ((fastStep s tag).channels.getD i default).buffer_write_index
      = (if (s.channels.getD i default).buffer_write_index + 1
            = (s.stored_tags.headD []).length then 0
         else (s.channels.getD i default).buffer_write_index + 1) := by
  rw [fastStep_signal s tag ht hrc hch hlast]
  refine ⟨rfl, rfl, rfl, ?_, ?_, ?_⟩
  · exact (pushTag_read_count_unchanged s.channels s.stored_tags tag.channel
      tag.time s.reference.last s.reference.period (s.stored_tags.headD []).length).1
  · exact (pushTag_read_count_unchanged s.channels s.stored_tags tag.channel
      tag.time s.reference.last s.reference.period (s.stored_tags.headD []).length).2
  · exact pushTag_write_advances s.channels s.stored_tags tag.channel tag.time
      s.reference.last s.reference.period (s.stored_tags.headD []).length i hi
      hrows hfirst hmatch

/-- C5 counterexample.  Pending-ring capacity 2: after one reference tag and
two signal tags the write index has wrapped all the way back onto the read
index — the ring now reads as empty although both samples are pending and
unprocessed — and the message list is still empty: no warning naming the
channel or drop count was ever emitted, and nothing reported the oldest
sample as dropped. -/
theorem buffer_overflow_counterexample :
    (fast_process (oneChanState 100 2 4)
        [⟨0, 1, 1000⟩, ⟨0, 2, 1100⟩, ⟨0, 2, 1200⟩]).channels
      = [{ channel := 2, buffer_read_index := 0, buffer_write_index := 0,
           offset := 100, index := 0, missed := 0 }] ∧
    (fast_process (oneChanState 100 2 4)
        [⟨0, 1, 1000⟩, ⟨0, 2, 1100⟩, ⟨0, 2, 1200⟩]).stored_tags
      = [[1000, 1100]] ∧
    (fast_process (oneChanState 100 2 4)
        [⟨0, 1, 1000⟩, ⟨0, 2, 1100⟩, ⟨0, 2, 1200⟩]).messages = [] := by
  refine ⟨by decide, by decide, by decide⟩

/-- C5 witness: the amended theorem applied to the one-channel state after
one reference and one signal tag (write index 1, capacity 2), pushed with a
further signal tag. -/
theorem buffer_overflow_wraps_silently_witness :
    ((⟨0, 2, 1200⟩ : FTag).ttype = 0 ∧
     (fast_process (oneChanState 100 2 4)
        [⟨0, 1, 1000⟩, ⟨0, 2, 1100⟩]).reference.channel ≠ 0 ∧
     (⟨0, 2, 1200⟩ : FTag).channel
       ≠ (fast_process (oneChanState 100 2 4)
            [⟨0, 1, 1000⟩, ⟨0, 2, 1100⟩]).reference.channel ∧
     (fast_process (oneChanState 100 2 4)
        [⟨0, 1, 1000⟩, ⟨0, 2, 1100⟩]).reference.last > 0) ∧
    ((fastStep (fast_process (oneChanState 100 2 4)
        [⟨0, 1, 1000⟩, ⟨0, 2, 1100⟩]) ⟨0, 2, 1200⟩).messages
      = (fast_process (oneChanState 100 2 4)
          [⟨0, 1, 1000⟩, ⟨0, 2, 1100⟩]).messages ∧
     (fastStep (fast_process (oneChanState 100 2 4)
        [⟨0, 1, 1000⟩, ⟨0, 2, 1100⟩]) ⟨0, 2, 1200⟩).histograms
      = (fast_process (oneChanState 100 2 4)
          [⟨0, 1, 1000⟩, ⟨0, 2, 1100⟩]).histograms ∧
     (fastStep (fast_process (oneChanState 100 2 4)
        [⟨0, 1, 1000⟩, ⟨0, 2, 1100⟩]) ⟨0, 2, 1200⟩).histWrites
      = (fast_process (oneChanState 100 2 4)
          [⟨0, 1, 1000⟩, ⟨0, 2, 1100⟩]).histWrites ∧
     (fastStep (fast_process (oneChanState 100 2 4)
        [⟨0, 1, 1000⟩, ⟨0, 2, 1100⟩]) ⟨0, 2, 1200⟩).channels.map
          ChanState.buffer_read_index
      = (fast_process (oneChanState 100 2 4)
          [⟨0, 1, 1000⟩, ⟨0, 2, 1100⟩]).channels.map ChanState.buffer_read_index ∧
     (fastStep (fast_process (oneChanState 100 2 4)
        [⟨0, 1, 1000⟩, ⟨0, 2, 1100⟩]) ⟨0, 2, 1200⟩).channels.map ChanState.index
      = (fast_process (oneChanState 100 2 4)
          [⟨0, 1, 1000⟩, ⟨0, 2, 1100⟩]).channels.map ChanState.index ∧
     ((fastStep (fast_process (oneChanState 100 2 4)
        [⟨0, 1, 1000⟩, ⟨0, 2, 1100⟩]) ⟨0, 2, 1200⟩).channels.getD 0
          default).buffer_write_index
      = (if ((fast_process (oneChanState 100 2 4)
            [⟨0, 1, 1000⟩, ⟨0, 2, 1100⟩]).channels.getD 0
              default).buffer_write_index + 1
            = ((fast_process (oneChanState 100 2 4)
                [⟨0, 1, 1000⟩, ⟨0, 2, 1100⟩]).stored_tags.headD []).length then 0
         else ((fast_process (oneChanState 100 2 4)
            [⟨0, 1, 1000⟩, ⟨0, 2, 1100⟩]).channels.getD 0
              default).buffer_write_index + 1)) :=
  ⟨⟨by decide, by decide, by decide, by decide⟩,
   buffer_overflow_wraps_silently (fast_process (oneChanState 100 2 4)
      [⟨0, 1, 1000⟩, ⟨0, 2, 1100⟩]) ⟨0, 2, 1200⟩
      (by decide) (by decide) (by decide) (by decide) 0 (by decide) (by decide)
      (fun j hj => absurd hj (by omega)) (by decide)⟩

/-- C6 (amended): at a cycle boundary, a channel whose histogram count is 0
gets a NaN result cell (`none`) and a "No events on channel …" message, but
it is NOT marked Unanchored: the channel record — in particular its
`offset` (the anchor, whose re-acquisition would require `offset = -1`) —
is left completely unchanged, so the anchor is not re-acquired from the
next raw tag (the marking line is commented out in the source, line 112). -/
theorem empty_cycle_keeps_anchor :
    ∀ (cs : List ChanState) (hs : List (List Int)) (i : Nat),
      i < cs.length → i < hs.length → (cs.getD i default).index = 0 →
      ((closeChans cs hs).1.getD i default = cs.getD i default ∧
       (closeChans cs hs).2.1.getD i (some ([], 0)) = none ∧
       (s!"No events on channel {(cs.getD i default).channel}.")
         ∈ (closeChans cs hs).2.2) := by
  intro cs
  induction cs with
  | nil =>
    intro hs i hi
    exact absurd hi (by simp)
  | cons c cs ih =>
    intro hs i hi hhs hidx
    cases hs with
    | nil => simp at hhs
    | cons h hs =>
      cases i with
      | zero =>
        have h0 : c.index = 0 := hidx
        refine ⟨?_, ?_, ?_⟩ <;> simp [closeChans, h0]
      | succ j =>
        have hrec := ih hs j (by simpa using hi) (by simpa using hhs)
          (by simpa using hidx)
        by_cases h0 : c.index = 0
        · refine ⟨?_, ?_, ?_⟩
          · simpa [closeChans, h0] using hrec.1
          · simpa [closeChans, h0] using hrec.2.1
          · simp only [closeChans, h0, if_pos]
            exact List.mem_cons_of_mem _ hrec.2.2
        · refine ⟨?_, ?_, ?_⟩
          · simpa [closeChans, h0] using hrec.1
          · simpa [closeChans, h0] using hrec.2.1
          · simp only [closeChans, h0, if_neg, ite_false]
            exact hrec.2.2

/-- C6 counterexample.  Averaging count 2; the channel records one sample in
the first cycle and none in the second.  At the second cycle boundary the
code writes the NaN row and the warning, but the channel's anchor offset
stays 400 (it is never set back to -1), and the next raw tag at 4500 is
stored as `4500 - 400 = 4100` using the stale anchor instead of triggering
re-acquisition. -/
theorem empty_cycle_counterexample :
    (fast_process (oneChanState 2 8 8)
        [⟨0, 1, 1000⟩, ⟨0, 2, 1400⟩, ⟨0, 1, 2000⟩, ⟨0, 1, 3000⟩,
         ⟨0, 1, 4000⟩, ⟨0, 2, 4500⟩]).channels
      = [{ channel := 2, buffer_read_index := 1, buffer_write_index := 2,
           offset := 400, index := 0, missed := 0 }] ∧
    (fast_process (oneChanState 2 8 8)
        [⟨0, 1, 1000⟩, ⟨0, 2, 1400⟩, ⟨0, 1, 2000⟩, ⟨0, 1, 3000⟩,
         ⟨0, 1, 4000⟩, ⟨0, 2, 4500⟩]).data
      = [[some ([0], 400), none, none, none]] ∧
    (fast_process (oneChanState 2 8 8)
        [⟨0, 1, 1000⟩, ⟨0, 2, 1400⟩, ⟨0, 1, 2000⟩, ⟨0, 1, 3000⟩,
         ⟨0, 1, 4000⟩, ⟨0, 2, 4500⟩]).messages
      = ["No events on channel 2."] ∧
    (fast_process (oneChanState 2 8 8)
        [⟨0, 1, 1000⟩, ⟨0, 2, 1400⟩, ⟨0, 1, 2000⟩, ⟨0, 1, 3000⟩,
         ⟨0, 1, 4000⟩, ⟨0, 2, 4500⟩]).stored_tags
      = [[1000, 4100, 0, 0, 0, 0, 0, 0]] := by
  refine ⟨by decide, by decide, by decide, by decide⟩

/-- A concrete anchored channel (offset 400) with an empty histogram count,
for the C6 witness. -/
def anchoredChan : ChanState :=
  { channel := 2, buffer_read_index := 1, buffer_write_index := 1,
    offset := 400, index := 0, missed := 0 }

/-- C6 witness: the amended theorem applied to the concrete anchored channel
with an empty histogram at the boundary. -/
theorem empty_cycle_keeps_anchor_witness :
    (0 < ([anchoredChan] : List ChanState).length ∧
     0 < ([[0, 0]] : List (List Int)).length ∧
     (([anchoredChan] : List ChanState).getD 0 default).index = 0) ∧
    ((closeChans [anchoredChan] [[0, 0]]).1.getD 0 default
        = ([anchoredChan] : List ChanState).getD 0 default ∧
     (closeChans [anchoredChan] [[0, 0]]).2.1.getD 0 (some ([], 0)) = none ∧
     (s!"No events on channel {(([anchoredChan] : List ChanState).getD 0 default).channel}.")
       ∈ (closeChans [anchoredChan] [[0, 0]]).2.2) :=
  ⟨⟨by decide, by decide, by decide⟩,
   empty_cycle_keeps_anchor [anchoredChan] [[0, 0]] 0
     (by decide) (by decide) (by decide)⟩

/-- One-step unfolding of the per-channel drain loop. -/
theorem drainChanF_succ (n : Nat) (c : ChanState) (row hist : List Int)
    (last period : Int) (cap : Nat) (writes : List Nat) :
    drainChanF (n + 1) c row hist last period cap writes
      = if c.buffer_read_index < cap ∧ c.buffer_write_index < cap ∧
           c.buffer_write_index ≠ c.buffer_read_index then
          (if row.getD c.buffer_read_index 0 - last < Int.fdiv (-period) 2 then
            drainChanF n (bumpRead c cap) row hist last period cap writes
          else if row.getD c.buffer_read_index 0 - last < Int.fdiv period 2 then
            drainChanF n (bumpRead { c with index := c.index + 1 } cap) row
              (hist.set c.index (row.getD c.buffer_read_index 0 - last))
              last period cap (writes ++ [c.index])
          else (c, hist, writes))
        else (c, hist, writes) := rfl

/-- With fuel exceeding the pending count, the per-channel drain stops only
at its genuine exit: either the loop guard fails, or the head sample's
difference is at or beyond both halting boundaries. -/
theorem drainChanF_post (fuel : Nat) :
    ∀ (c : ChanState) (row hist : List Int) (last period : Int) (cap : Nat)
      (writes : List Nat),
      (cap + c.buffer_write_index - c.buffer_read_index) % cap < fuel →
      (¬((drainChanF fuel c row hist last period cap writes).1.buffer_read_index < cap ∧
         (drainChanF fuel c row hist last period cap writes).1.buffer_write_index < cap ∧
         (drainChanF fuel c row hist last period cap writes).1.buffer_write_index ≠
           (drainChanF fuel c row hist last period cap writes).1.buffer_read_index)) ∨
      (Int.fdiv (-period) 2 ≤
         row.getD (drainChanF fuel c row hist last period cap writes).1.buffer_read_index 0
           - last ∧
       Int.fdiv period 2 ≤
         row.getD (drainChanF fuel c row hist last period cap writes).1.buffer_read_index 0
           - last) := by
  induction fuel with
  | zero =>
    intro c row hist last period cap writes hfuel
    omega
  | succ n ih =>
    intro c row hist last period cap writes hfuel
    by_cases hg : c.buffer_read_index < cap ∧ c.buffer_write_index < cap ∧
        c.buffer_write_index ≠ c.buffer_read_index
    · have hdec : (cap + (bumpRead c cap).buffer_write_index
            - (bumpRead c cap).buffer_read_index) % cap < n := by
        have hlt := LCA.ringMeasureLt cap c.buffer_read_index c.buffer_write_index
          hg.1 hg.2.1 (Ne.symm hg.2.2)
        simp only [bumpRead]
        omega
      by_cases h1 : row.getD c.buffer_read_index 0 - last < Int.fdiv (-period) 2
      · rw [drainChanF_succ, if_pos hg, if_pos h1]
        exact ih (bumpRead c cap) row hist last period cap writes hdec
      · by_cases h2 : row.getD c.buffer_read_index 0 - last < Int.fdiv period 2
        · rw [drainChanF_succ, if_pos hg, if_neg h1, if_pos h2]
          exact ih (bumpRead { c with index := c.index + 1 } cap) row
            (hist.set c.index (row.getD c.buffer_read_index 0 - last)) last period cap
            (writes ++ [c.index]) hdec
        · rw [drainChanF_succ, if_pos hg, if_neg h1, if_neg h2]
          refine Or.inr ⟨?_, ?_⟩
          · show Int.fdiv (-period) 2 ≤ row.getD c.buffer_read_index 0 - last
            omega
          · show Int.fdiv period 2 ≤ row.getD c.buffer_read_index 0 - last
            omega
    · rw [drainChanF_succ, if_neg hg]
      exact Or.inl hg

/-- If the exit condition already holds, the drain loop (with any positive
fuel) returns its arguments unchanged. -/
theorem drainChanF_exit (fuel : Nat) (hfuel : 0 < fuel) (c : ChanState)
    (row hist : List Int) (last period : Int) (cap : Nat) (writes : List Nat)
    (hexit : ¬(c.buffer_read_index < cap ∧ c.buffer_write_index < cap ∧
               c.buffer_write_index ≠ c.buffer_read_index) ∨
             (Int.fdiv (-period) 2 ≤ row.getD c.buffer_read_index 0 - last ∧
              Int.fdiv period 2 ≤ row.getD c.buffer_read_index 0 - last)) :
    drainChanF fuel c row hist last period cap writes = (c, hist, writes) := by
  cases fuel with
  | zero => omega
  | succ n =>
    rw [drainChanF_succ]
    rcases hexit with hexit | hexit
    · rw [if_neg hexit]
    · by_cases hg : c.buffer_read_index < cap ∧ c.buffer_write_index < cap ∧
          c.buffer_write_index ≠ c.buffer_read_index
      · rw [if_pos hg, if_neg (by omega), if_neg (by omega)]
      · rw [if_neg hg]

/-- Re-running the per-channel drain on its own result (same previous
reference time, no new tags) is a no-op: channel and histogram come back
unchanged and no write happens. -/
theorem drainChan_idem (c : ChanState) (row hist : List Int)
    (last period : Int) (cap : Nat) :
    drainChan (drainChan c row hist last period cap).1 row
        (drainChan c row hist last period cap).2.1 last period cap
      = ((drainChan c row hist last period cap).1,
         (drainChan c row hist last period cap).2.1, []) := by
  by_cases hcap : cap = 0
  · subst hcap
    rfl
  · have hpost := drainChanF_post cap c row hist last period cap []
      (Nat.mod_lt _ (Nat.pos_of_ne_zero hcap))
    exact drainChanF_exit cap (Nat.pos_of_ne_zero hcap) _ row _ last period cap [] hpost

/-- C8: Running the reference-arrival drain logic (the per-channel drain over
all channels, lines 87-105) a second time with the same previous reference
time and no new input tags is a no-op: every channel state (pending-buffer
read/write indices and sample count) and every histogram row come back
unchanged, and the second pass performs no histogram writes at all. -/
theorem drain_idempotent (cs : List ChanState) :
    ∀ (rows hs : List (List Int)) (last period : Int) (cap : Nat) (i j : Nat),
      drainAll (drainAll cs rows hs last period cap i).1 rows
          (drainAll cs rows hs last period cap i).2.1 last period cap j
        = ((drainAll cs rows hs last period cap i).1,
           (drainAll cs rows hs last period cap i).2.1, []) := by
  induction cs with
  | nil =>
    intro rows hs last period cap i j
    cases rows <;> cases hs <;> rfl
  | cons c cs ih =>
    intro rows hs last period cap i j
    cases rows with
    | nil => rfl
    | cons row rows =>
      cases hs with
      | nil => rfl
      | cons h hs =>
        show drainAll
            ((drainChan c row h last period cap).1 ::
              (drainAll cs rows hs last period cap (i + 1)).1)
            (row :: rows)
            ((drainChan c row h last period cap).2.1 ::
              (drainAll cs rows hs last period cap (i + 1)).2.1)
            last period cap j
          = _
        show ((drainChan (drainChan c row h last period cap).1 row
                (drainChan c row h last period cap).2.1 last period cap).1 ::
              (drainAll (drainAll cs rows hs last period cap (i + 1)).1 rows
                (drainAll cs rows hs last period cap (i + 1)).2.1
                last period cap (j + 1)).1, _, _) = _
        rw [drainChan_idem, ih rows hs last period cap (i + 1) (j + 1)]
        rfl

/-- The drain loop's sample count never decreases, and every histogram write
column it logs is either an old log entry or lies between the entering and
the final sample count. -/
theorem drainChanF_writes_range (fuel : Nat) :
    ∀ (c : ChanState) (row hist : List Int) (last period : Int) (cap : Nat)
      (writes : List Nat),
      c.index ≤ (drainChanF fuel c row hist last period cap writes).1.index ∧
      ∀ col ∈ (drainChanF fuel c row hist last period cap writes).2.2,
        col ∈ writes ∨
        (c.index ≤ col ∧
         col < (drainChanF fuel c row hist last period cap writes).1.index) := by
  induction fuel with
  | zero =>
    intro c row hist last period cap writes
    exact ⟨le_refl _, fun col hc => Or.inl hc⟩
  | succ n ih =>
    intro c row hist last period cap writes
    by_cases hg : c.buffer_read_index < cap ∧ c.buffer_write_index < cap ∧
        c.buffer_write_index ≠ c.buffer_read_index
    · by_cases h1 : row.getD c.buffer_read_index 0 - last < Int.fdiv (-period) 2
      · rw [drainChanF_succ, if_pos hg, if_pos h1]
        exact ih (bumpRead c cap) row hist last period cap writes
      · by_cases h2 : row.getD c.buffer_read_index 0 - last < Int.fdiv period 2
        · rw [drainChanF_succ, if_pos hg, if_neg h1, if_pos h2]
          obtain ⟨hmono, hcols⟩ := ih (bumpRead { c with index := c.index + 1 } cap)
            row (hist.set c.index (row.getD c.buffer_read_index 0 - last))
            last period cap (writes ++ [c.index])
          refine ⟨le_trans (Nat.le_succ _) hmono, ?_⟩
          intro col hc
          rcases hcols col hc with hold | ⟨hlo, hhi⟩
          · rcases List.mem_append.mp hold with h | h
            · exact Or.inl h
            · have hcol : col = c.index := by simpa using h
              subst hcol
              exact Or.inr ⟨le_refl _, lt_of_lt_of_le (Nat.lt_succ_self _) hmono⟩
          · exact Or.inr ⟨le_trans (Nat.le_succ _) hlo, hhi⟩
        · rw [drainChanF_succ, if_pos hg, if_neg h1, if_neg h2]
          exact ⟨le_refl _, fun col hc => Or.inl hc⟩
    · rw [drainChanF_succ, if_neg hg]
      exact ⟨le_refl _, fun col hc => Or.inl hc⟩

/-- C9 (amended): a drain's histogram write columns are the consecutive
sample-count values starting at the channel's entering count, so they stay
strictly below the histogram width exactly when the final sample count does
not exceed that width; the code has no bound check at the write site
(lines 92-94), so without that condition a column can reach the width. -/
theorem histogram_write_bound (c : ChanState) (row hist : List Int)
    (last period : Int) (cap width : Nat)
    (hfinal : (drainChan c row hist last period cap).1.index ≤ width) :
    ∀ col ∈ (drainChan c row hist last period cap).2.2, col < width := by
  intro col hc
  rcases (drainChanF_writes_range cap c row hist last period cap []).2 col hc
    with h | ⟨_, hhi⟩
  · simp at h
  · exact lt_of_lt_of_le hhi hfinal

def cW : ChanState :=
  { channel := 2, buffer_read_index := 0, buffer_write_index := 1,
    offset := 0, index := 0, missed := 0 }

theorem histogram_write_bound_witness :
    (drainChan cW [1100, 0, 0, 0, 0, 0, 0, 0] (List.replicate 8 0)
        1000 1000 8).1.index ≤ 8 ∧ (0 : Nat) < 8 :=
  ⟨by decide,
   histogram_write_bound cW [1100, 0, 0, 0, 0, 0, 0, 0] (List.replicate 8 0)
     1000 1000 8 8 (by decide) 0 (by decide)⟩

/-- With histogram width 1, a single cycle that buffers two accepted samples
drains with write columns 0 and 1: column 1 is not strictly less than the
width, refuting the unconditional in-bounds claim. -/
theorem histogram_write_counterexample :
    (fast_process (oneChanState 100 8 1)
        [⟨0, 1, 1000⟩, ⟨0, 2, 1100⟩, ⟨0, 2, 1110⟩, ⟨0, 1, 2000⟩]).histWrites
      = [(0, 0), (0, 1)] ∧
    ((oneChanState 100 8 1).histograms.getD 0 []).length = 1 ∧
    ¬((1 : Nat) < 1) := by
  refine ⟨?_, by decide, by decide⟩
  decide
